import Mathlib

/-!
Verification development for the miigaik_mapper mapping-resolution pipeline.

The Python source is shallowly embedded: Django rows become Lean structures,
Python dicts become association lists with insertion-order semantics
(`dfind?`, `dset`, `dupd`, ...), Python floats are modelled as exact
rationals, and code paths that raise an uncaught exception are modelled in
the `Option` monad (`none` = crash).  Functions keep the names of their
Python sources where Lean allows it.
-/

set_option autoImplicit false

/-! ## Python dict semantics over association lists

A Python `dict` preserves the insertion position of a key; assigning to an
existing key updates the value in place.  The association lists built below
only ever hold one entry per key (they are images of Python dicts), and the
operations implement exactly that discipline. -/

/-- Lookup, `d.get(k)` / `d[k]`. -/
def dfind? {α β : Type} [DecidableEq α] : List (α × β) → α → Option β
  | [], _ => none
  | (k', v) :: t, k => if k' = k then some v else dfind? t k

/-- Key membership, `k in d`. -/
def dmem {α β : Type} [DecidableEq α] (d : List (α × β)) (k : α) : Bool :=
  (dfind? d k).isSome

/-- Assignment `d[k] = v`: update in place if present, else append. -/
def dset {α β : Type} [DecidableEq α] : List (α × β) → α → β → List (α × β)
  | [], k, v => [(k, v)]
  | (k', v') :: t, k, v =>
      if k' = k then (k', v) :: t else (k', v') :: dset t k v

/-- `d.setdefault(k, dflt)` followed by a mutation `f` of the entry's value:
update the present value with `f`, else append `(k, f dflt)`. -/
def dupd {α β : Type} [DecidableEq α] : List (α × β) → α → β → (β → β) → List (α × β)
  | [], k, dflt, f => [(k, f dflt)]
  | (k', v') :: t, k, dflt, f =>
      if k' = k then (k', f v') :: t else (k', v') :: dupd t k dflt f

/-- `d.setdefault(k, v)` used purely for its insertion effect. -/
def dsetdefault {α β : Type} [DecidableEq α] (d : List (α × β)) (k : α) (v : β) :
    List (α × β) :=
  if dmem d k then d else d ++ [(k, v)]

/-- `d.pop(k)`: removal by key. -/
def dpop {α β : Type} [DecidableEq α] (d : List (α × β)) (k : α) : List (α × β) :=
  d.filter (fun p => p.1 ≠ k)

/-- `dict(pairs)`: first occurrence fixes the position of a key, the last
occurrence fixes its value. -/
def pyDictOf {α β : Type} [DecidableEq α] (l : List (α × β)) : List (α × β) :=
  l.foldl (fun d p => dset d p.1 p.2) []

/-! ## Python string semantics

Only the alphabets actually appearing in this code base (ASCII and Cyrillic)
are covered by the case map; `str.strip()` strips the common whitespace
characters including the no-break space. -/

/-- `str.upper()` on one character: ASCII letters, Cyrillic а–я and ё. -/
def pyUpperChar (c : Char) : Char :=
  if 'a' ≤ c ∧ c ≤ 'z' then Char.ofNat (c.toNat - 32)
  else if 'а' ≤ c ∧ c ≤ 'я' then Char.ofNat (c.toNat - 32)
  else if c = 'ё' then 'Ё'
  else c

/-- `str.upper()`. -/
def pyUpper (s : String) : String := ⟨s.data.map pyUpperChar⟩

/-- The no-break space U+00A0. -/
def nbspChar : Char := Char.ofNat 160

/-- Characters stripped by `str.strip()` (the ones occurring in feeds). -/
def isPyWs (c : Char) : Bool :=
  c = ' ' ∨ c = '\t' ∨ c = '\n' ∨ c = '\r' ∨
  c = Char.ofNat 11 ∨ c = Char.ofNat 12 ∨ c = Char.ofNat 133 ∨ c = nbspChar

/-- `str.strip()`. -/
def pyStrip (s : String) : String :=
  ⟨((s.data.dropWhile isPyWs).reverse.dropWhile isPyWs).reverse⟩

/-- Replace every occurrence of one character by another
(`str.replace` with single-character arguments). -/
def strReplaceChar (s : String) (old new : Char) : String :=
  ⟨s.data.map (fun c => if c = old then new else c)⟩

/-- Boolean substring test (`needle in hay`). -/
def strContains (hay needle : String) : Bool :=
  let rec go : List Char → Bool
    | [] => needle.data.isPrefixOf []
    | c :: t => needle.data.isPrefixOf (c :: t) || go t
  go hay.data

/-- `str.split(sep)` with a non-empty separator; the fuel is the input
length, which the scan never exhausts. -/
def pySplitGo (sep : List Char) : Nat → List Char → List Char → List (List Char)
  | _, [], acc => [acc.reverse]
  | 0, l, acc => [acc.reverse ++ l]
  | fuel + 1, c :: t, acc =>
      if sep.isPrefixOf (c :: t) then
        acc.reverse :: pySplitGo sep fuel ((c :: t).drop sep.length) []
      else pySplitGo sep fuel t (c :: acc)

/-- `str.split(sep)`. -/
def pySplit (s sep : String) : List String :=
  (pySplitGo sep.data s.data.length s.data []).map (fun l => (⟨l⟩ : String))

/-! ## Numeric parsing and printing

Python floats are modelled as exact (unnormalized) rationals with a plain
structural representation so that every operation reduces in the kernel.
The denominator is positive for every value the embedding constructs.
`float(...)` literals of the exotic forms (`inf`, `nan`, underscore
separators) are out of scope and are modelled as parse failures; no resolved
claim depends on them. -/

/-- An exact rational: `num / den`. -/
structure PRat where
  num : Int
  den : Nat
deriving DecidableEq

/-- Multiplication. -/
def PRat.mul (a b : PRat) : PRat := ⟨a.num * b.num, a.den * b.den⟩

/-- Reciprocal (`1 / x`); meaningful only for `num ≠ 0`, which every caller
guards. -/
def PRat.inv (a : PRat) : PRat :=
  if a.num < 0 then ⟨-(a.den : Int), a.num.natAbs⟩ else ⟨(a.den : Int), a.num.natAbs⟩

/-- Embedding of an integer. -/
def PRat.ofInt (i : Int) : PRat := ⟨i, 1⟩

/-- Python `x == 0` on a float. -/
def PRat.isZero (a : PRat) : Bool := a.num = 0

/-- Value of a digit run. -/
def digitsVal (l : List Char) : Nat :=
  l.foldl (fun acc c => 10 * acc + (c.toNat - 48)) 0

/-- `int(s)`: optional surrounding whitespace, optional sign, digits. -/
def pyInt (s : String) : Option Int :=
  let l := ((s.data.dropWhile isPyWs).reverse.dropWhile isPyWs).reverse
  let (sgn, l1) : Int × List Char :=
    match l with
    | '-' :: t => (-1, t)
    | '+' :: t => (1, t)
    | t => (1, t)
  if l1 ≠ [] ∧ l1.all Char.isDigit then some (sgn * digitsVal l1) else none

/-- `float(s)`: optional sign, decimal mantissa, optional exponent. -/
def pyFloat (s : String) : Option PRat :=
  let l := ((s.data.dropWhile isPyWs).reverse.dropWhile isPyWs).reverse
  let (neg, l1) : Bool × List Char :=
    match l with
    | '-' :: t => (true, t)
    | '+' :: t => (false, t)
    | t => (false, t)
  let ip := l1.takeWhile Char.isDigit
  let r1 := l1.dropWhile Char.isDigit
  let (fp, r2) : List Char × List Char :=
    match r1 with
    | '.' :: t => (t.takeWhile Char.isDigit, t.dropWhile Char.isDigit)
    | t => ([], t)
  if ip = [] ∧ fp = [] then none
  else
    let mnum : Nat := digitsVal ip * 10 ^ fp.length + digitsVal fp
    let mden : Nat := 10 ^ fp.length
    let signed : Int := if neg then -(mnum : Int) else (mnum : Int)
    match r2 with
    | [] => some ⟨signed, mden⟩
    | e :: t =>
        if e = 'e' ∨ e = 'E' then
          let (esgn, t1) : Bool × List Char :=
            match t with
            | '-' :: u => (true, u)
            | '+' :: u => (false, u)
            | u => (false, u)
          if t1 ≠ [] ∧ t1.all Char.isDigit then
            let ex := digitsVal t1
            some (if esgn then ⟨signed, mden * 10 ^ ex⟩
                  else ⟨signed * (10 : Int) ^ ex, mden⟩)
          else none
        else none

/-- `round(x, 10)`: rounding half to even at ten decimal digits
(modelled in exact rationals; the fraction is compared with `1/2` by
cross-multiplication). -/
def round10 (q : PRat) : PRat :=
  let n : Int := q.num * 10000000000
  let d : Nat := q.den
  let fl : Int := Int.fdiv n d
  let rem : Int := n - fl * d
  let r : Int :=
    if (d : Int) < 2 * rem then fl + 1
    else if 2 * rem < (d : Int) then fl
    else if fl % 2 = 0 then fl else fl + 1
  ⟨r, 10000000000⟩

/-- Decimal rendering of a rational whose denominator divides `10^10`
(the only shapes the embedded arithmetic prints), in the style of Python
`str(float)`: at least one fractional digit. -/
def ratStr (q : PRat) : String :=
  let sign := if q.num < 0 then "-" else ""
  let na := q.num.natAbs
  let d := q.den
  if 10000000000 % d = 0 then
    let scaled := na * (10000000000 / d)
    let ip := scaled / 10000000000
    let fp := scaled % 10000000000
    let fpStr := toString fp
    let padded : List Char := List.replicate (10 - fpStr.length) '0' ++ fpStr.data
    let trimmed : List Char := (padded.reverse.dropWhile (· = '0')).reverse
    sign ++ toString ip ++ "." ++ (if trimmed = [] then "0" else ⟨trimmed⟩)
  else
    sign ++ toString na ++ "/" ++ toString d

/-- `str(int(x))` for an integer. -/
def intStr (i : Int) : String := toString i

/-- `int(float)`: truncation toward zero. -/
def ratTruncInt (q : PRat) : Int := Int.tdiv q.num (q.den : Int)

/-! ## `apps/mapper/utils/utils.py`: `normalize_string` (lines 814-816) -/

/-- `normalize_string`: `string.strip().upper().replace(' ', ' ')`.
Note that it does not touch the Cyrillic Ё. -/
def normalize_string (s : String) : String :=
  strReplaceChar (pyUpper (pyStrip s)) nbspChar ' '

/-! ## `apps/mapper/fetchers/feed/feed_attributes_fetcher.py`:
`standardize_str` (lines 221-223) -/

/-- `standardize_str`: `convert.upper().replace('Ё', 'Е').replace('\xa0', ' ')`. -/
def standardize_str (s : String) : String :=
  strReplaceChar (strReplaceChar (pyUpper s) 'Ё' 'Е') nbspChar ' '

/-! ## `apps/mapper/utils/utils.py`: `get_unit_map` (lines 586-596) -/

/-- A `ValueUnitMap` row; the `FloatField` multiplier is modelled as an exact
rational. -/
structure ValueUnitMap where
  value_unit_from_id : Nat
  value_unit_to_id : Nat
  multiplier : PRat
deriving DecidableEq

/-- Accumulator pass of `get_unit_map`; `1/multiplier` raises
`ZeroDivisionError` when the stored multiplier is zero, modelled by `none`. -/
def get_unit_map_aux (acc : List ((Nat × Nat) × PRat)) :
    List ValueUnitMap → Option (List ((Nat × Nat) × PRat))
  | [] => some acc
  | r :: rs =>
      if r.multiplier.isZero then none
      else
        get_unit_map_aux
          (dset (dset acc (r.value_unit_from_id, r.value_unit_to_id) r.multiplier)
            (r.value_unit_to_id, r.value_unit_from_id) r.multiplier.inv) rs

/-- `get_unit_map`: `{(from,to): m, (to,from): 1/m for every row}`, each row
processed in table order over one shared dict. -/
def get_unit_map (rows : List ValueUnitMap) : Option (List ((Nat × Nat) × PRat)) :=
  get_unit_map_aux [] rows

/-! ## `apps/mapper/utils/utils.py`: `get_mapped_values` (lines 599-701)

The attribute map is the structure documented in
`get_category_attribute_map`: feed attribute name → (attribute-map pk →
per-mapping data), with an optional `values_map` present exactly when the
marketplace attribute has a dictionary.  Numeric source ids are modelled as
`Nat` (the Python code compares them as strings or converts with `int(...)`;
both are faithful for the numeric ids the marketplaces use). -/

/-- One entry of a `values_map` list. -/
structure ValuesMapEntry where
  value : String
  dictionary_value_id : Nat
  deleted : Bool
deriving DecidableEq

/-- One per-mapping record of the attribute map (`get_category_attribute_map`
inner dict). `values_map = none` models the absence of the key. -/
structure MappingForMarket where
  source_id : Nat
  dictionary_id : Option Nat
  data_type : String
  mapping_id : Nat
  from_unit_id : Option Nat
  to_unit_id : Option Nat
  is_rich_content : Bool
  ignore_data_type : Bool
  deleted : Bool
  values_map : Option (List (String × List ValuesMapEntry))
deriving DecidableEq

/-- The attribute map: normalized feed attribute name → pk → entry. -/
abbrev AttrMap := List (String × List (Nat × MappingForMarket))

/-- One resolved assignment of `result['values']`.  The dictionary path
copies the value-map entry, so it carries the entry's `deleted` flag;
the non-dictionary path builds its dict without that key (`none`). -/
structure ResolvedAssignment where
  value : String
  dictionary_value_id : Nat
  deleted : Option Bool
  attribute_source_id : Nat
  data_type : String
  is_rich_content : Bool
  ignore_data_type : Bool
deriving DecidableEq

/-- The full result dict of `get_mapped_values`. -/
structure MappedValues where
  values : List (String × List ResolvedAssignment)
  unmapped_attributes : List String
  unmapped_value_attributes : List Nat
  empty_value_attributes : List Nat
  type_error_attributes : List Nat
  mapped_with_deleted : List Nat
  mapped_with_deleted_value : List Nat
deriving DecidableEq

/-- The empty result dict (lines 606-614). -/
def initMappedValues : MappedValues :=
  { values := [], unmapped_attributes := [], unmapped_value_attributes := []
  , empty_value_attributes := [], type_error_attributes := []
  , mapped_with_deleted := [], mapped_with_deleted_value := [] }

/-- Dictionary-path assignment (`dict(**values_map, attribute_source_id=...,
data_type=..., is_rich_content=..., ignore_data_type=...)`, lines 651-662). -/
def mkDictAssign (vme : ValuesMapEntry) (e : MappingForMarket) : ResolvedAssignment :=
  { value := vme.value, dictionary_value_id := vme.dictionary_value_id
  , deleted := some vme.deleted, attribute_source_id := e.source_id
  , data_type := e.data_type, is_rich_content := e.is_rich_content
  , ignore_data_type := e.ignore_data_type }

/-- Non-dictionary-path assignment (lines 687-700); no `deleted` key. -/
def mkPlainAssign (v : String) (e : MappingForMarket) : ResolvedAssignment :=
  { value := v, dictionary_value_id := 0, deleted := none
  , attribute_source_id := e.source_id, data_type := e.data_type
  , is_rich_content := e.is_rich_content, ignore_data_type := e.ignore_data_type }

/-- Loop over the matching value-map entries (lines 644-662): append one
resolved assignment per non-deleted entry under the feed attribute name. -/
def appendDictAssigns (attr_name : String) (e : MappingForMarket)
    (entries : List ValuesMapEntry) (res : MappedValues) : MappedValues :=
  entries.foldl
    (fun r vme =>
      if vme.deleted then r
      else { r with values := dupd r.values attr_name [] (· ++ [mkDictAssign vme e]) })
    res

/-- Body of the `for mapping_for_market in attribute_mapping_data.values()`
loop (lines 624-700) for one raw value under one mapping. -/
def process_mapping (value_unit_map : List ((Nat × Nat) × PRat)) (attr_name : String)
    (attr_value : String) (e : MappingForMarket) (res : MappedValues) : MappedValues :=
  if e.deleted then res
  else if attr_value = "" then
    { res with empty_value_attributes := res.empty_value_attributes ++ [e.source_id] }
  else if e.dictionary_id.isSome then
    -- dictionary path; the reader creates `values_map` exactly when
    -- `dictionary_id` is set, so the key is present here
    let values_maps := e.values_map.getD []
    match dfind? values_maps (pyUpper attr_value) with
    | none =>
        { res with unmapped_value_attributes :=
            res.unmapped_value_attributes ++ [e.source_id] }
    | some entries =>
        let res1 := appendDictAssigns attr_name e entries res
        if dmem res1.values attr_name then res1
        else
          { res1 with mapped_with_deleted_value :=
              res1.mapped_with_deleted_value ++ [e.source_id] }
  else
    let mult? : Option PRat :=
      match e.from_unit_id, e.to_unit_id with
      | some f, some t => dfind? value_unit_map (f, t)
      | _, _ => none
    -- `if multiplier:` — a missing key or a 0.0 factor are both falsy
    match mult? with
    | some m =>
        if ¬ m.isZero then
          match pyFloat (strReplaceChar attr_value ',' '.') with
          | some num_value =>
              let v := ratStr (round10 (num_value.mul m))
              { res with values := dupd res.values attr_name [] (· ++ [mkPlainAssign v e]) }
          | none =>
              { res with type_error_attributes :=
                  res.type_error_attributes ++ [e.source_id] }
        else
          { res with values := dupd res.values attr_name [] (· ++ [mkPlainAssign attr_value e]) }
    | none =>
        { res with values := dupd res.values attr_name [] (· ++ [mkPlainAssign attr_value e]) }

/-- Body of the `for attr_value in attr_values` loop (lines 617-700):
a missing or empty (falsy) per-name bucket records `unmapped_attributes`. -/
def process_value (value_unit_map : List ((Nat × Nat) × PRat)) (attribute_map : AttrMap)
    (attr_name : String) (attr_value : String) (res : MappedValues) : MappedValues :=
  match dfind? attribute_map attr_name with
  | some (b :: bs) =>
      (b :: bs).foldl (fun r p => process_mapping value_unit_map attr_name attr_value p.2 r) res
  | _ =>
      { res with unmapped_attributes := res.unmapped_attributes ++ [attr_name] }

/-- `get_mapped_values` after the unit map has been fetched (lines 606-701). -/
def get_mapped_values_core (value_unit_map : List ((Nat × Nat) × PRat))
    (attribute_map : AttrMap) (feed_attribute_values : List (String × List String)) :
    MappedValues :=
  feed_attribute_values.foldl
    (fun res p =>
      p.2.foldl (fun r v => process_value value_unit_map attribute_map p.1 v r) res)
    initMappedValues

/-- `get_mapped_values` (lines 599-701): fetches the unit map (which raises on
a zero-factor row) and resolves every raw value. -/
def get_mapped_values (unit_rows : List ValueUnitMap) (attribute_map : AttrMap)
    (feed_attribute_values : List (String × List String)) : Option MappedValues :=
  (get_unit_map unit_rows).map
    (fun vum => get_mapped_values_core vum attribute_map feed_attribute_values)

/-! ## `apps/mapper/utils/utils.py`: `get_category_attribute_map`
(lines 464-561), first phase (lines 501-533)

The queryset is modelled as the list of `AttributeMap` rows of the requested
category mapping, already joined with their feed attribute and marketplace
attribute.  The first phase builds the name-keyed skeleton; the claims below
concern its keys, which the second phase (value maps, lines 535-559) never
changes. -/

/-- The joined `feed_attribute` columns used by the reader. -/
structure FeedAttributeRow where
  name : String
  unit_id : Option Nat
deriving DecidableEq

/-- The joined `marketplace_attribute.attribute` (`MarketAttribute`) columns
used by the reader. -/
structure MarketAttributeRow where
  source_id : Nat
  dictionary_id : Option Nat
  data_type : String
  unit_id : Option Nat
  is_rich_content : Bool
  ignore_data_type : Bool
  disabled : Bool
deriving DecidableEq

/-- The joined `marketplace_attribute` (`MarketCategoryAttribute`) columns;
`attr` models the `attribute` foreign key (a Lean keyword). -/
structure MarketCategoryAttributeRow where
  attr : MarketAttributeRow
  deleted : Bool
deriving DecidableEq

/-- One `AttributeMap` row of the category mapping. -/
structure AttributeMapRow where
  id : Nat
  feed_attribute : FeedAttributeRow
  marketplace_attribute : MarketCategoryAttributeRow
deriving DecidableEq

/-- The per-row entry built at lines 519-533; `values_map` is created (empty)
exactly when the marketplace attribute has a dictionary.  Attribute-map pks
are unique, so the `setdefault` on the pk always inserts. -/
def attrMapEntryOfRow (r : AttributeMapRow) : MappingForMarket :=
  let ma := r.marketplace_attribute.attr
  { source_id := ma.source_id, dictionary_id := ma.dictionary_id
  , data_type := ma.data_type, mapping_id := r.id
  , from_unit_id := r.feed_attribute.unit_id, to_unit_id := ma.unit_id
  , is_rich_content := ma.is_rich_content, ignore_data_type := ma.ignore_data_type
  , deleted := r.marketplace_attribute.deleted
  , values_map := if ma.dictionary_id.isSome then some [] else none }

/-- First phase of `get_category_attribute_map` (lines 501-533): only rows
whose marketplace attribute is not globally disabled are included, keyed by
the `normalize_string`-normalized feed attribute name. -/
def get_category_attribute_map_attrs (rows : List AttributeMapRow) : AttrMap :=
  (rows.filter (fun r => ¬ r.marketplace_attribute.attr.disabled)).foldl
    (fun acc r =>
      dupd acc (normalize_string r.feed_attribute.name) []
        (fun bucket => dsetdefault bucket r.id (attrMapEntryOfRow r)))
    []

/-! ## `apps/mapper/utils/utils.py`: Equal-Value Auto-Mapper
(`map_attribute_equal_values` lines 319-362, `create_val_mappings` lines
182-194, `get_equal_values` lines 197-220, `get_both_values_for_unmapped`
lines 223-309, `map_attribute_equal_values_v2` lines 312-316)

The database fragment the mapper touches is modelled as explicit row lists,
in table order; the Django `Upper` annotation is `pyUpper`. -/

/-- A `FeedCategoryAttributeValue` row. -/
structure FeedValueRow where
  id : Nat
  attribute_id : Nat
  value : String
deriving DecidableEq

/-- A `MarketAttributeValue` row (`source_id` is the numeric marketplace id,
used by the customs-code matcher). -/
structure MarketValueRow where
  id : Nat
  source_id : Nat
  dictionary_id : Option Nat
  value : String
  deleted : Bool
deriving DecidableEq

/-- The `MarketAttribute` columns the mapper reads. -/
structure MarketAttrEV where
  map_equal_values : Bool
  dictionary_id : Option Nat
  default_value_id : Option Nat
deriving DecidableEq

/-- An `AttributeMap` row as the mapper sees it (`feed_id` is the feed of the
feed attribute's category, used by the batch filter). -/
structure AttrMapEV where
  id : Nat
  feed_attribute_id : Nat
  feed_id : Nat
  attr : MarketAttrEV
deriving DecidableEq

/-- A `ValueMap` row. -/
structure ValueMapRow where
  attribute_map_id : Nat
  feed_attribute_value_id : Nat
  marketplace_attribute_value_id : Nat
deriving DecidableEq

/-- The database state the Equal-Value Auto-Mapper reads and writes. -/
structure MapperDB where
  value_maps : List ValueMapRow
  feed_values : List FeedValueRow
  market_values : List MarketValueRow
  attr_maps : List AttrMapEV
deriving DecidableEq

/-- Feed value ids already mapped under the given attribute map
(`ValueMap.objects.filter(attribute_map_id=...)`, lines 329-331). -/
def mappedFeedValueIds (db : MapperDB) (attribute_map_id : Nat) : List Nat :=
  (db.value_maps.filter (fun vm => vm.attribute_map_id = attribute_map_id)).map
    (fun vm => vm.feed_attribute_value_id)

/-- The filtered feed-value rows of lines 333-341 before the `dict(...)`. -/
def unmappedFeedValuePairs (db : MapperDB) (am : AttrMapEV) : List (String × Nat) :=
  ((db.feed_values.filter
      (fun v => v.attribute_id = am.feed_attribute_id ∧
        v.id ∉ mappedFeedValueIds db am.id)).map
    (fun v => (pyUpper v.value, v.id)))

/-- The marketplace-value dict of lines 343-350. -/
def marketplaceValuesDict (db : MapperDB) (dictionary_id : Option Nat) :
    List (String × Nat) :=
  pyDictOf
    ((db.market_values.filter
        (fun m => m.dictionary_id = dictionary_id ∧ ¬ m.deleted)).map
      (fun m => (pyUpper m.value, m.id)))

/-- The per-value resolution of lines 352-360: a marketplace-value hit
falls back to `default_value_id` (`or`); a falsy result skips the value. -/
def equal_values_resolve (marketplace_values : List (String × Nat))
    (default_value_id : Option Nat) (attribute_map_id : Nat) (p : String × Nat) :
    Option ValueMapRow :=
  let mp? : Option Nat :=
    match dfind? marketplace_values p.1 with
    | some v => some v
    | none => default_value_id
  mp?.map (fun mp =>
    { attribute_map_id := attribute_map_id
    , feed_attribute_value_id := p.2
    , marketplace_attribute_value_id := mp })

/-- `map_attribute_equal_values` (lines 319-362).  `none` models the
`DoesNotExist` raise of `AttributeMap.objects.get`. -/
def map_attribute_equal_values (db : MapperDB) (attribute_map_id : Nat) :
    Option MapperDB :=
  match db.attr_maps.find? (fun am => am.id = attribute_map_id) with
  | none => none
  | some attribute_map =>
      let ma := attribute_map.attr
      if ¬ (ma.map_equal_values ∧ ma.dictionary_id.isSome) then some db
      else
        let unmapped_feed_values := pyDictOf (unmappedFeedValuePairs db attribute_map)
        let marketplace_values := marketplaceValuesDict db ma.dictionary_id
        let new_rows := unmapped_feed_values.filterMap
          (equal_values_resolve marketplace_values ma.default_value_id
            attribute_map_id)
        some { db with value_maps := db.value_maps ++ new_rows }

/-- One `get_or_create` of lines 186-193. -/
def create_one (attribute_map_id : Nat) (acc2 : MapperDB) (q : Nat × Nat) :
    MapperDB :=
  let row : ValueMapRow :=
    { attribute_map_id := attribute_map_id, feed_attribute_value_id := q.1
    , marketplace_attribute_value_id := q.2 }
  if row ∈ acc2.value_maps then acc2
  else { acc2 with value_maps := acc2.value_maps ++ [row] }

/-- The per-mapping inner loop of `create_val_mappings`. -/
def create_step (acc : MapperDB) (p : Nat × List (Nat × Nat)) : MapperDB :=
  p.2.foldl (create_one p.1) acc

/-- `create_val_mappings` (lines 182-194): `get_or_create` per triple. -/
def create_val_mappings (val_mappings : List (Nat × List (Nat × Nat)))
    (db : MapperDB) : MapperDB :=
  val_mappings.foldl create_step db

/-- The per-mapping record of `get_both_values_for_unmapped`; absent dict
keys are modelled as empty lists (both uses are truthiness tests). -/
structure UnmappedEntry where
  unmapped_feed_values : List (Nat × String)
  mp_values : List (Nat × String)
deriving DecidableEq

/-- The qualifying attribute maps of the batch scope (lines 243-254). -/
def qualifyingAttrMaps (db : MapperDB) (feed_id : Nat) : List AttrMapEV :=
  (db.attr_maps.filter
      (fun am => am.feed_id = feed_id ∧ am.attr.map_equal_values)).filter
    (fun am => am.attr.map_equal_values ∧ am.attr.dictionary_id.isSome)

/-- Globally mapped feed value ids across the qualifying maps (lines 266-268). -/
def batchMappedFeedValueIds (db : MapperDB) (feed_id : Nat) : List Nat :=
  ((db.value_maps.filter
      (fun vm => (qualifyingAttrMaps db feed_id).any
        (fun am => am.id = vm.attribute_map_id))).map
    (fun vm => vm.feed_attribute_value_id))

/-- The unmapped feed-value tuples of lines 270-276. -/
def batchUnmappedFeedValues (db : MapperDB) (feed_id : Nat) :
    List (Nat × Nat × String) :=
  ((db.feed_values.filter
      (fun v => ((qualifyingAttrMaps db feed_id).map
          (fun am => am.feed_attribute_id)).contains v.attribute_id ∧
        v.id ∉ batchMappedFeedValueIds db feed_id)).map
    (fun v => (v.attribute_id, v.id, pyUpper v.value)))

/-- The per-map unmapped list of lines 278-287. -/
def batchUnmappedOf (db : MapperDB) (feed_id : Nat) (am : AttrMapEV) :
    List (Nat × String) :=
  ((batchUnmappedFeedValues db feed_id).filter
      (fun t => t.1 = am.feed_attribute_id)).map (fun t => t.2)

/-- The marketplace-value tuples of lines 289-294 restricted to one
dictionary (the `__in` prefilter composed with the exact filter of lines
298-302). -/
def batchMpValuesOf (db : MapperDB) (am : AttrMapEV) : List (Nat × String) :=
  ((db.market_values.filter
      (fun m => m.dictionary_id = am.attr.dictionary_id ∧ ¬ m.deleted)).map
    (fun m => (m.id, pyUpper m.value)))

/-- `get_both_values_for_unmapped` (lines 223-309).  The first pass assigns
per-map records for maps with a nonempty unmapped list; the second pass fills
`mp_values` when nonempty (an empty filter result leaves the field empty,
which is also what the record starts as). -/
def unmapped_first_step (db : MapperDB) (feed_id : Nat)
    (acc : List (Nat × UnmappedEntry)) (am : AttrMapEV) :
    List (Nat × UnmappedEntry) :=
  let u := batchUnmappedOf db feed_id am
  if u ≠ [] then
    dset acc am.id { unmapped_feed_values := u, mp_values := [] }
  else acc

/-- The marketplace values of lines 289-302 for the dictionary recorded
under one attribute-map id. -/
def unmapped_mp_of (db : MapperDB) (dict_ids : List (Nat × Option Nat))
    (k : Nat) : List (Nat × String) :=
  ((db.market_values.filter
      (fun m => m.dictionary_id = (dfind? dict_ids k).getD none ∧
        ¬ m.deleted)).map
    (fun m => (m.id, pyUpper m.value)))

/-- The second pass of lines 296-307 over one record. -/
def unmapped_second_step (db : MapperDB) (dict_ids : List (Nat × Option Nat))
    (p : Nat × UnmappedEntry) : Nat × UnmappedEntry :=
  let mp := unmapped_mp_of db dict_ids p.1
  if mp ≠ [] then (p.1, { p.2 with mp_values := mp }) else p

def get_both_values_for_unmapped (db : MapperDB) (feed_id : Nat) :
    List (Nat × UnmappedEntry) :=
  let first : List (Nat × UnmappedEntry) :=
    (qualifyingAttrMaps db feed_id).foldl (unmapped_first_step db feed_id) []
  let dict_ids : List (Nat × Option Nat) :=
    pyDictOf ((qualifyingAttrMaps db feed_id).map
      (fun am => (am.id, am.attr.dictionary_id)))
  first.map (unmapped_second_step db dict_ids)

/-- `get_equal_values` (lines 197-220): for every unmapped feed value, map to
the first marketplace value with equal uppercased text. -/
def equal_values_inner (p : Nat × UnmappedEntry)
    (m : List (Nat × List (Nat × Nat))) (fv : Nat × String) :
    List (Nat × List (Nat × Nat)) :=
  match p.2.mp_values.find? (fun mv => fv.2 = mv.2) with
  | some mv => dupd m p.1 [] (fun inner => dset inner fv.1 mv.1)
  | none => m

/-- The per-record loop body of lines 203-218. -/
def equal_values_step (mapping : List (Nat × List (Nat × Nat)))
    (p : Nat × UnmappedEntry) : List (Nat × List (Nat × Nat)) :=
  if p.2.mp_values ≠ [] ∧ p.2.unmapped_feed_values ≠ [] then
    p.2.unmapped_feed_values.foldl (equal_values_inner p) mapping
  else mapping

def get_equal_values (unmapped_dict : List (Nat × UnmappedEntry)) :
    List (Nat × List (Nat × Nat)) :=
  unmapped_dict.foldl equal_values_step []

/-- `map_attribute_equal_values_v2` (lines 312-316). -/
def map_attribute_equal_values_v2 (db : MapperDB) (feed_id : Nat) : MapperDB :=
  create_val_mappings (get_equal_values (get_both_values_for_unmapped db feed_id)) db

/-! ## `apps/ozon/library/ozon_manage_offers/params_manager.py`

A parsed feed offer is the key/value bag produced by `xmltodict`: values are
strings, lists, nested bags, or `None` (empty elements).  Code paths raising
an uncaught exception return `none`. -/

/-- A loosely-typed Python value of a parsed offer. -/
inductive PyVal where
  | s (str : String)
  | l (items : List PyVal)
  | d (fields : List (String × PyVal))
  | null

/-- Python truthiness of an offer value. -/
def PyVal.truthy : PyVal → Bool
  | .s v => v != ""
  | .l items => !items.isEmpty
  | .d fields => !fields.isEmpty
  | .null => false

/-- Python `str(...)`.  Feed payload scalars are strings; the renderings of
lists and bags are never inspected by any resolved claim. -/
def pyStr : PyVal → String
  | .s v => v
  | .l _ => "[list]"
  | .d _ => "\x7bdict\x7d"
  | .null => "None"

/-- A parsed offer. -/
abbrev Offer := List (String × PyVal)

/-- `offer.get(key)`. -/
def pyGetRaw (offer : Offer) (k : String) : Option PyVal := dfind? offer k

/-- `_get(offer, key, default)` (lines 67-69): the default also replaces a
stored `None`. -/
def pyGetOr (offer : Offer) (k : String) (dflt : PyVal) : PyVal :=
  match dfind? offer k with
  | none => dflt
  | some .null => dflt
  | some v => v

/-- Truthiness of an optional value (`offer.get(...)` used in a condition). -/
def truthyOpt : Option PyVal → Bool
  | none => false
  | some v => v.truthy

/-- `s if isinstance(v, str) else None`-style projection. -/
def asStr : PyVal → Option String
  | .s v => some v
  | _ => none

/-- One entry of `get_market_category_attributes` output
(`apps/mapper/utils/utils.py` lines 564-583), as the params manager sees it. -/
structure OzonAttrData where
  required : Bool
  disabled : Bool
  dictionary_id : Option Nat
  name : String
deriving DecidableEq

/-- The read-only context of one `collect_offer_import_params` run:
the per-category lookups plus the two sanitizers that live outside `src/`
(`remove_prohibited_characters` from `apps.utils.string_utils` and the
BeautifulSoup-based `_clear_annotation_tags`), taken as opaque string
functions. -/
structure Lookups where
  ozon_attributes : List (Nat × OzonAttrData)
  unit_rows : List ValueUnitMap
  market_values : List MarketValueRow
  sanitize : String → String
  annotation_clean : String → String
  category_deleted : Bool
  ozon_category_id : String

/-- `OZON_ATTRIBUTES_IDS` (lines 33-43), scalars pre-wrapped into the lists
`add_if_exists` builds. -/
def OZON_ATTRIBUTES_IDS (k : String) : List Nat :=
  if k = "group" then [8292, 10289]
  else if k = "weight" then [4497]
  else if k = "length" then [9454]
  else if k = "width" then [9455]
  else if k = "height" then [9456]
  else if k = "model" then [9048]
  else if k = "annotation" then [4191]
  else if k = "name" then [4180]
  else if k = "vendorCode" then [9024]
  else []

def VIDEO_URL_ID : Nat := 21841
def VIDEO_NAME_ID : Nat := 21837
def VIDEO_COMPLEX_ID : Nat := 100001
def TYPE_SOURCE_ID : Nat := 8229
def TN_VED_CODE_SUBSTRING : String := "ТН ВЭД"

/-- `MODEL_YEAR_PARAM = 'Модельный год'.upper()` (line 57). -/
def MODEL_YEAR_PARAM : String := pyUpper "Модельный год"

/-- `MODEL_YEAR_PARAM_INT` (line 58). -/
def MODEL_YEAR_PARAM_INT : String := MODEL_YEAR_PARAM ++ " INT"

/-- `VAT_BY_CODE` (lines 60-64). -/
def VAT_BY_CODE : List (String × String) := [("5", "0.0"), ("2", "0.1"), ("7", "0.2")]

/-- One value record of `self._attributes_values`. -/
structure AttrValueItem where
  value : String
  dictionary_value_id : Nat
deriving DecidableEq

/-- One attribute record of `self._attributes_values`. -/
structure AttributeValues where
  complex_id : Nat
  id : Nat
  values : List AttrValueItem
deriving DecidableEq

/-- One attribute record of `self._complex_attributes_values[complex_id]`. -/
structure ComplexValues where
  complex_id : Nat
  id : Nat
  values : List String
deriving DecidableEq

/-- The mutable builder state `_collect_attributes` reads and writes. -/
structure CollectState where
  attributes_values : List (Nat × AttributeValues)
  complex_attributes_values : List (Nat × List (Nat × ComplexValues))
  required_ozon_attributes : List Nat
deriving DecidableEq

/-- `_remove_ozon_attribute_from_required` (lines 386-388): removes every
occurrence. -/
def remove_ozon_attribute_from_required (st : CollectState) (sid : Nat) : CollectState :=
  { st with required_ozon_attributes := st.required_ozon_attributes.filter (· ≠ sid) }

/-- `_add_attribute_value` (lines 309-326). -/
def add_attribute_value (st : CollectState) (sid : Nat) (value : String)
    (dictionary_value_id : Nat) : CollectState :=
  let init : AttributeValues := { complex_id := 0, id := sid, values := [] }
  let av' := dupd st.attributes_values sid init
    (fun av => { av with values := av.values ++ [⟨value, dictionary_value_id⟩] })
  remove_ozon_attribute_from_required { st with attributes_values := av' } sid

/-- `_add_complex_attribute_value` (lines 328-346). -/
def add_complex_attribute_value (st : CollectState) (sid : Nat) (value : String)
    (complex_id : Nat) : CollectState :=
  let init : ComplexValues := { complex_id := complex_id, id := sid, values := [] }
  let cav' := dupd st.complex_attributes_values complex_id []
    (fun inner => dupd inner sid init
      (fun cv => { cv with values := cv.values ++ [value] }))
  remove_ozon_attribute_from_required { st with complex_attributes_values := cav' } sid

/-- `add_error` closure of `_collect_attributes` (lines 448-453): record only
for known attributes whose static `required` flag is set. -/
def add_error (oz : List (Nat × OzonAttrData)) (errors : List (Nat × String))
    (sid : Nat) (err : String) : List (Nat × String) :=
  match dfind? oz sid with
  | none => errors
  | some d => if d.required then dset errors sid err else errors

/-- `process_video_url` (lines 659-680). -/
def process_video_url (attr_url : String) : String :=
  let base_url := "youtube.com/watch?v="
  let base_url_full := "https://www.youtube.com/watch?v="
  let shorten_base_url := "youtu.be/"
  if ¬ strContains attr_url "." then base_url_full ++ attr_url
  else if strContains attr_url base_url then
    base_url_full ++ ((pySplit attr_url base_url).getD 1 "")
  else if strContains attr_url shorten_base_url then
    base_url_full ++ ((pySplit attr_url shorten_base_url).getD 1 "")
  else attr_url

/-- `_convert_attribute_value` (lines 348-355); `none` is a `ValueError`. -/
def convert_attribute_value (sanitize : String → String) (value ty : String) :
    Option String :=
  if ty = "Decimal" then (pyFloat (strReplaceChar value ',' '.')).map ratStr
  else if ty = "Integer" then (pyInt value).map intStr
  else some (sanitize value)

/-- `parse_dimensions` (lines 72-89): any failure (missing value, wrong arity,
parse error) yields `('0', '0', '0')`. -/
def parse_dimensions (v : Option PyVal) : String × String × String :=
  match v with
  | some (.s ds) =>
      match pySplit (strReplaceChar ds ',' '.') "/" with
      | [a, b, c] =>
          let pf : String → Option PRat := fun p => pyFloat (if p = "" then "0" else p)
          match pf a, pf b, pf c with
          | some x, some y, some z =>
              (intStr (ratTruncInt (x.mul (PRat.ofInt 10))),
               intStr (ratTruncInt (y.mul (PRat.ofInt 10))),
               intStr (ratTruncInt (z.mul (PRat.ofInt 10))))
          | _, _, _ => ("0", "0", "0")
      | _ => ("0", "0", "0")
  | _ => ("0", "0", "0")

/-! ### Customs-code (TN VED) matching (lines 380-442) -/

/-- Characters of the regex class `[\d .]`. -/
def tnVedClassChar (c : Char) : Bool := c.isDigit || c = ' ' || c = '.'

/-- Largest index `i ≥ 2` of a digit in the run (the greedy backtracking of
`[\d .]{2,}\d`). -/
def lastDigitGe2 (run : List Char) : Option Nat :=
  ((List.range run.length).filter
    (fun i => 2 ≤ i ∧ (run.getD i ' ').isDigit)).getLast?

/-- Leftmost-longest search for `\d[\d .]{2,}\d`. -/
def extract_tn_ved_aux : List Char → Option (List Char)
  | [] => none
  | c :: t =>
      if c.isDigit then
        let run := t.takeWhile tnVedClassChar
        match lastDigitGe2 run with
        | some i => some (c :: run.take (i + 1))
        | none => extract_tn_ved_aux t
      else extract_tn_ved_aux t

/-- `_extract_tn_ved_code` (lines 380-384): the matched code with spaces
removed, or the empty string. -/
def extract_tn_ved_code (code : String) : String :=
  match extract_tn_ved_aux code.data with
  | none => ""
  | some l => ⟨l.filter (· ≠ ' ')⟩

/-- The `values_by_code` dict of lines 405-413: extracted code →
(marketplace value text, its source id). -/
def tn_ved_values_by_code (rows : List MarketValueRow) (dictionary_id : Option Nat) :
    List (String × (String × Nat)) :=
  pyDictOf
    ((rows.filter (fun r => r.dictionary_id = dictionary_id ∧ ¬ r.deleted)).map
      (fun r => (extract_tn_ved_code r.value, (r.value, r.source_id))))

/-- The `while len(...) >= 4` prefix-shortening loop of lines 417-424,
with the iteration count bounded structurally by the initial length (each
pass drops the last character, so the bound is never the limiting factor). -/
def tn_ved_shorten_go (values_by_code : List (String × (String × Nat))) :
    Nat → List Char → Option (String × Nat)
  | 0, _ => none
  | fuel + 1, part =>
      if 4 ≤ part.length then
        match dfind? values_by_code (⟨part⟩ : String) with
        | some v => some v
        | none => tn_ved_shorten_go values_by_code fuel part.dropLast
      else none

/-- The prefix-shortening loop on the raw code string as-is. -/
def tn_ved_shorten (values_by_code : List (String × (String × Nat)))
    (part : String) : Option (String × Nat) :=
  tn_ved_shorten_go values_by_code part.data.length part.data

/-- The full per-code matching of lines 415-432: prefix shortening down to
length 4, then, when the leftover part has length 3, the fallback
`tn_ved_code[:4] + '00'` built from the raw code. -/
def tn_ved_match (values_by_code : List (String × (String × Nat)))
    (code : String) : Option (String × Nat) :=
  match tn_ved_shorten values_by_code code with
  | some v => some v
  | none =>
      if 3 ≤ code.data.length then
        dfind? values_by_code (⟨code.data.take 4⟩ ++ "00")
      else none

/-- `_add_tn_ved_codes` (lines 390-442).  Slicing a `None`/bag code in the
fallback raises, hence the `Option`. -/
def add_tn_ved_codes (l : Lookups) (offer : Offer) (st : CollectState) :
    Option (CollectState × List (Nat × String)) := do
  let tvc0 := pyGetOr offer "tn-ved-codes" (.d [])
  let tvc1 := match tvc0 with
    | .d fields => (dfind? fields "tn-ved-code").getD (.l [])
    | x => x
  let codes := match tvc1 with | .l xs => xs | x => [x]
  let tn_ved_attributes :=
    l.ozon_attributes.filter (fun p => strContains p.2.name TN_VED_CODE_SUBSTRING)
  let st1 ← tn_ved_attributes.foldlM
    (fun st p => do
      let values_by_code := tn_ved_values_by_code l.market_values p.2.dictionary_id
      codes.foldlM
        (fun st code => do
          let part := pyStr code
          match tn_ved_shorten values_by_code part with
          | some v => pure (add_attribute_value st p.1 v.1 v.2)
          | none =>
              if 3 ≤ part.data.length then do
                let fbBase : String ←
                  match code with
                  | .s s2 => some ⟨s2.data.take 4⟩
                  | .l xs => some (pyStr (.l (xs.take 4)))
                  | _ => none
                match dfind? values_by_code (fbBase ++ "00") with
                | some v => pure (add_attribute_value st p.1 v.1 v.2)
                | none => pure st
              else pure st)
        st)
    st
  let errs := tn_ved_attributes.foldl
    (fun e p =>
      if p.1 ∈ st1.required_ozon_attributes then
        dset e p.1 (if codes.isEmpty then "missing" else "not_found")
      else e)
    ([] : List (Nat × String))
  pure (st1, errs)

/-! ### Feed parameter collection and resolution (lines 444-501) -/

/-- Lines 455-475: collect `param` entries keyed by the normalized `@name`,
then every scalar string tag keyed by `tag.strip().upper()`. -/
def build_feed_params (offer : Offer) : Option (List (String × List String)) := do
  let offer_params := pyGetOr offer "param" (.l [])
  let plist := match offer_params with | .l xs => xs | x => [x]
  let fp ← plist.foldlM
    (fun acc p =>
      if ¬ p.truthy then pure acc
      else
        match p with
        | .d fields => do
            let nameS ← asStr (← dfind? fields "@name")
            let textS ← asStr ((dfind? fields "#text").getD (.s ""))
            pure (dupd acc (normalize_string nameS) [] (· ++ [pyStrip textS]))
        | _ => none)
    ([] : List (String × List String))
  pure (offer.foldl
    (fun acc p =>
      match p.2 with
      | .s sv => dupd acc (pyUpper (pyStrip p.1)) [] (· ++ [pyStrip sv])
      | _ => acc)
    fp)

/-- Lines 477-482: derive the `МОДЕЛЬНЫЙ ГОД INT` parameter
(`('20' + year.split('-')[-1])[-4:]`). -/
def add_model_year_params (fp : List (String × List String)) :
    List (String × List String) :=
  match dfind? fp MODEL_YEAR_PARAM with
  | none => fp
  | some vals =>
      let model_years := vals.map (fun my =>
        let y := "20" ++ ((pySplit my "-").getLastD "")
        (⟨y.data.drop (y.data.length - 4)⟩ : String))
      dset fp MODEL_YEAR_PARAM_INT model_years

/-- One iteration of the model-year loop body (lines 491-496): a mapping
without a `values_map` is inserted under `МОДЕЛЬНЫЙ ГОД INT` and popped from
the `МОДЕЛЬНЫЙ ГОД` bucket. -/
def munge_step (m : AttrMap) (p : Nat × MappingForMarket) : AttrMap :=
  if p.2.values_map = none then
    let m1 := dupd m MODEL_YEAR_PARAM_INT [] (fun b => dset b p.1 p.2)
    dupd m1 MODEL_YEAR_PARAM [] (fun b => dpop b p.1)
  else m

/-- Lines 484-496: move the model-year mappings without a `values_map` from
the `МОДЕЛЬНЫЙ ГОД` bucket to the `МОДЕЛЬНЫЙ ГОД INT` bucket.  The loop
iterates a snapshot of the bucket's keys; each key is read before any
removal of it, so folding over the snapshot pairs is faithful. -/
def munge_model_year_map (amap : AttrMap) : AttrMap :=
  match dfind? amap MODEL_YEAR_PARAM with
  | none => amap
  | some bucket => bucket.foldl munge_step amap

/-- Lines 503-542, inner loop over one `values_data` list.  A conversion
`ValueError` records `bad_value` and `break`s out of the list. -/
def process_values_data (sanitize : String → String)
    (oz : List (Nat × OzonAttrData)) (items : List ResolvedAssignment)
    (st : CollectState) (errors : List (Nat × String)) :
    CollectState × List (Nat × String) :=
  match items with
  | [] => (st, errors)
  | vd :: rest =>
      if vd.attribute_source_id = VIDEO_URL_ID ∨ vd.attribute_source_id = VIDEO_NAME_ID then
        let value :=
          if vd.attribute_source_id = VIDEO_URL_ID then process_video_url vd.value
          else vd.value
        process_values_data sanitize oz rest
          (add_complex_attribute_value st vd.attribute_source_id value VIDEO_COMPLEX_ID)
          errors
      else if vd.dictionary_value_id = 0 ∧ ¬ vd.is_rich_content ∧ ¬ vd.ignore_data_type then
        match convert_attribute_value sanitize vd.value vd.data_type with
        | none => (st, add_error oz errors vd.attribute_source_id "bad_value")
        | some v =>
            process_values_data sanitize oz rest
              (add_attribute_value st vd.attribute_source_id v vd.dictionary_value_id)
              errors
      else
        process_values_data sanitize oz rest
          (add_attribute_value st vd.attribute_source_id vd.value vd.dictionary_value_id)
          errors

/-- Lines 503-542, outer loop over `result['values'].values()`. -/
def process_all_values (sanitize : String → String)
    (oz : List (Nat × OzonAttrData)) (values : List (String × List ResolvedAssignment))
    (st : CollectState) (errors : List (Nat × String)) :
    CollectState × List (Nat × String) :=
  values.foldl (fun acc p => process_values_data sanitize oz p.2 acc.1 acc.2) (st, errors)

/-- `add_if_exists` (lines 564-576): `None` records `missing` and returns
(no assignment, remaining ids skipped); the empty string records `empty` and
is still assigned. -/
def add_if_exists (oz : List (Nat × OzonAttrData)) (st : CollectState)
    (errors : List (Nat × String)) (ids : List Nat) (value : Option PyVal) :
    CollectState × List (Nat × String) :=
  match ids with
  | [] => (st, errors)
  | sid :: rest =>
      if ¬ dmem oz sid then add_if_exists oz st errors rest value
      else
        match value with
        | none => (st, add_error oz errors sid "missing")
        | some v =>
            let errors1 :=
              match v with
              | .s sv => if sv = "" then add_error oz errors sid "empty" else errors
              | _ => errors
            add_if_exists oz (add_attribute_value st sid (pyStr v) 0) errors1 rest value

/-- The `mappings` dict of lines 630-636: marketplace source id →
(feed attribute name, mapping id). -/
def build_mappings (amap : AttrMap) : List (Nat × (String × Nat)) :=
  amap.foldl
    (fun acc p => p.2.foldl (fun acc2 q => dset acc2 q.2.source_id (p.1, q.1)) acc)
    []

/-- The final consolidation loop of lines 637-654: required attributes with
no value and no earlier error are classified disabled→`logical`,
unmapped→`unmapped`, feed name absent→`missing`, else `unknown err`. -/
def consolidate_required (oz : List (Nat × OzonAttrData))
    (mappings : List (Nat × (String × Nat))) (fp : List (String × List String))
    (required : List Nat) (errors : List (Nat × String)) :
    Option (List (Nat × String)) :=
  required.foldlM
    (fun errs sid =>
      if dmem errs sid then pure errs
      else do
        let data ← dfind? oz sid
        if data.disabled then pure (dsetdefault errs sid "logical")
        else
          match dfind? mappings sid with
          | none => pure (dset errs sid "unmapped")
          | some nm =>
              if ¬ dmem fp nm.1 then pure (dset errs sid "missing")
              else pure (dset errs sid "unknown err"))
    errors

/-- `_collect_attributes` (lines 444-656), starting from the state the caller
reset, returning the (munged) attribute map, the updated state and the new
`_attributes_errors`. -/
def collect_attributes (l : Lookups) (amap : AttrMap) (st0 : CollectState)
    (offer : Offer) : Option (AttrMap × CollectState × List (Nat × String)) := do
  let fp0 ← build_feed_params offer
  let fp := add_model_year_params fp0
  let amap1 := munge_model_year_map amap
  let mv ← get_mapped_values l.unit_rows amap1 fp
  let (st1, errs1) := process_all_values l.sanitize l.ozon_attributes mv.values st0 []
  let errs2 := mv.mapped_with_deleted_value.foldl
    (fun e sid => add_error l.ozon_attributes e sid "mapped_with_deleted_value") errs1
  let errs3 := mv.unmapped_value_attributes.foldl
    (fun e sid => add_error l.ozon_attributes e sid "unmapped_val") errs2
  let errs4 := mv.empty_value_attributes.foldl
    (fun e sid => add_error l.ozon_attributes e sid "empty") errs3
  let errs5 := mv.type_error_attributes.foldl
    (fun e sid => add_error l.ozon_attributes e sid "bad_value") errs4
  let name0 := pyGetRaw offer "name"
  let name : Option PyVal :=
    if truthyOpt name0 then name0
    else
      -- `name_parts` is a `map` iterator: `all(name_parts)` exhausts it,
      -- so the subsequent `' '.join(name_parts)` always yields ''
      let parts := ["typePrefix", "vendor", "model"].map (fun tn => pyGetRaw offer tn)
      if parts.all truthyOpt then some (.s "") else name0
  let (st2, errs6) := add_if_exists l.ozon_attributes st1 errs5 (OZON_ATTRIBUTES_IDS "name") name
  let (st3, errs7) :=
    add_if_exists l.ozon_attributes st2 errs6 (OZON_ATTRIBUTES_IDS "vendorCode")
      (pyGetRaw offer "vendorCode")
  let idv ← dfind? offer "@id"
  let groupVal := (pyGetRaw offer "@group_id").getD (.s ("b2b-" ++ pyStr idv))
  let (st4, errs8) :=
    add_if_exists l.ozon_attributes st3 errs7 (OZON_ATTRIBUTES_IDS "group") (some groupVal)
  let dims := parse_dimensions (pyGetRaw offer "dimensions")
  let (st5, errs9) :=
    add_if_exists l.ozon_attributes st4 errs8 (OZON_ATTRIBUTES_IDS "length")
      (some (.s dims.1))
  let (st6, errs10) :=
    add_if_exists l.ozon_attributes st5 errs9 (OZON_ATTRIBUTES_IDS "width")
      (some (.s dims.2.1))
  let (st7, errs11) :=
    add_if_exists l.ozon_attributes st6 errs10 (OZON_ATTRIBUTES_IDS "height")
      (some (.s dims.2.2))
  let weightRaw := pyGetOr offer "weight" (.s "0")
  let (st8, errs12) :=
    match pyFloat (strReplaceChar (pyStr weightRaw) ',' '.') with
    | some q =>
        add_if_exists l.ozon_attributes st7 errs11 (OZON_ATTRIBUTES_IDS "weight")
          (some (.s (ratStr (q.mul (PRat.ofInt 1000)))))
    | none =>
        if 4497 ∈ st7.required_ozon_attributes then
          (st7, dset errs11 4497 "bad_value")
        else (st7, errs11)
  let (st9, errs13) :=
    add_if_exists l.ozon_attributes st8 errs12 (OZON_ATTRIBUTES_IDS "model")
      (pyGetRaw offer "model")
  let (st10, errs14) :=
    match pyGetRaw offer "description" with
    | some dv =>
        if dv.truthy then
          add_if_exists l.ozon_attributes st9 errs13 (OZON_ATTRIBUTES_IDS "annotation")
            (some (.s (l.annotation_clean (l.sanitize (pyStr dv)))))
        else (st9, errs13)
    | none => (st9, errs13)
  let tnr ← add_tn_ved_codes l offer st10
  let errs15 := tnr.2.foldl (fun e p => dset e p.1 p.2) errs14
  let st11 := remove_ozon_attribute_from_required tnr.1 TYPE_SOURCE_ID
  let mappings := build_mappings amap1
  let errsF ← consolidate_required l.ozon_attributes mappings fp
    st11.required_ozon_attributes errs15
  pure (amap1, st11, errsF)

/-- The dict returned per offer by `_collect_offer_parameters`
(lines 207-233), with the fields the claims inspect. -/
structure OfferInfo where
  barcode : String
  category_id : String
  name : String
  offer_id : String
  price : Option PyVal
  old_price : PyVal
  vat : String
  height : Option String
  depth : Option String
  width : Option String
  dimension_unit : String
  weight : String
  weight_unit : String
  images : List PyVal
  primary_image : PyVal
  images360 : List String
  attributes : List AttributeValues
  complex_attributes : List (List ComplexValues)
  attributes_errors : List (Nat × String)
  tags_errors : List (String × String)
  ready_for_import : Bool

/-- `convert_complex_attributes` (lines 248-255). -/
def convert_complex_attributes
    (cav : List (Nat × List (Nat × ComplexValues))) : List (List ComplexValues) :=
  cav.map (fun p => p.2.map (fun q => q.2))

/-- `add_name_to_complex_video` (lines 237-246). -/
def add_name_to_complex_video (st : CollectState) (name : String) : CollectState :=
  let entry : ComplexValues :=
    { complex_id := VIDEO_COMPLEX_ID, id := VIDEO_NAME_ID, values := [name] }
  let cav' := dupd st.complex_attributes_values VIDEO_COMPLEX_ID []
    (fun inner => dset inner VIDEO_NAME_ID entry)
  { st with complex_attributes_values := cav' }

/-- `_collect_offer_parameters` (lines 117-235): the per-offer accumulators
are reset at the start (lines 122-128); the only state carried over from a
previous offer is the shared attribute map.  Returns the mutated attribute
map, the leftover required list and the offer's output dict. -/
def collect_offer_parameters (l : Lookups) (amap : AttrMap) (offer : Offer) :
    Option (AttrMap × List Nat × OfferInfo) := do
  let required0 := (l.ozon_attributes.filter (fun p => p.2.required)).map (fun p => p.1)
  let st0 : CollectState :=
    { attributes_values := [], complex_attributes_values := []
    , required_ozon_attributes := required0 }
  let tags0 : List (String × String) := []
  let nameV : PyVal :=
    if dmem offer "@name" then (dfind? offer "@name").getD (.s "")
    else
      match dfind? offer "name" with
      | some v =>
          if v.truthy then v
          else
            match dfind? offer "model" with
            | some m => if m.truthy then m else .s ""
            | none => .s ""
      | none =>
          match dfind? offer "model" with
          | some m => if m.truthy then m else .s ""
          | none => .s ""
  let tags1 := if ¬ nameV.truthy then dset tags0 "@name/name/model" "missing" else tags0
  let valid_name := l.sanitize (pyStr nameV)
  let (tags2, dimsOk) :=
    if truthyOpt (pyGetRaw offer "dimensions") then (tags1, true)
    else (dset tags1 "dimensions" "missing", false)
  let dims? : Option (String × String × String) :=
    if dimsOk then some (parse_dimensions (pyGetRaw offer "dimensions")) else none
  let weightRaw := pyGetOr offer "weight" (.s "0")
  let (tags3, weightStr) :=
    match pyFloat (strReplaceChar (pyStr weightRaw) ',' '.') with
    | some q => (tags2, ratStr (q.mul (PRat.ofInt 1000)))
    | none => (dset tags2 "weight" "bad_value", pyStr weightRaw)
  let imagesRaw := pyGetOr offer "picture" (.l [])
  let images := match imagesRaw with | .l xs => xs | x => [x]
  let tags4 :=
    if images.isEmpty then dset tags3 "picture" "missing"
    else if ¬ (images.headD (.s "")).truthy then dset tags3 "picture" "empty"
    else tags3
  let images360 : List String :=
    match pyGetRaw offer "images360" with
    | some (.s sv) => if sv ≠ "" then pySplit sv "," else []
    | _ => []
  let ca ← collect_attributes l amap st0 offer
  let (amap1, stA, attrErrs) := ca
  let vatRaw := pyGetOr offer "vat" (.s "VAT_20")
  let vatRes : Option (List (String × String) × String) :=
    match vatRaw with
    | .s sv =>
        if sv = "" then some (dset tags4 "vat" "missing", sv)
        else if sv = "NO_VAT" then some (tags4, "0")
        else
          match dfind? VAT_BY_CODE sv with
          | some v => some (tags4, v)
          | none =>
              match pyInt ((pySplit sv "_").getLastD "") with
              | some i => some (tags4, ratStr ⟨i, 100⟩)
              | none => some (dset tags4 "vat" "bad_value", sv)
    | _ => none
  let (tags5, vat) ← vatRes
  let priceV := pyGetRaw offer "price"
  let tags6 :=
    match priceV with
    | none => dset tags5 "price" "missed"
    | some .null => dset tags5 "price" "missed"
    | some _ => tags5
  let tags7 :=
    if l.category_deleted then dset tags6 "Категория" "mapped_with_deleted" else tags6
  let video_attr := (dfind? stA.complex_attributes_values VIDEO_COMPLEX_ID).getD []
  let stB :=
    if dmem video_attr VIDEO_URL_ID ∧ ¬ dmem video_attr VIDEO_NAME_ID then
      add_name_to_complex_video stA valid_name
    else stA
  let offerId ← dfind? offer "@id"
  pure (amap1, stB.required_ozon_attributes,
    { barcode := pyStr (pyGetOr offer "barcode" (.s ""))
    , category_id := l.ozon_category_id
    , name := valid_name
    , offer_id := pyStr offerId
    , price := priceV
    , old_price := pyGetOr offer "oldprice" (.s "")
    , vat := vat
    , height := dims?.map (fun d => d.2.2)
    , depth := dims?.map (fun d => d.1)
    , width := dims?.map (fun d => d.2.1)
    , dimension_unit := "mm"
    , weight := weightStr
    , weight_unit := "g"
    , images := (images.drop 1).take 14
    , primary_image := images.headD (.s "")
    , images360 := images360
    , attributes := stB.attributes_values.map (fun p => p.2)
    , complex_attributes := convert_complex_attributes stB.complex_attributes_values
    , attributes_errors := attrErrs
    , tags_errors := tags7
    , ready_for_import :=
        stB.required_ozon_attributes.isEmpty && tags7.isEmpty })

/-- One pass of the offer loop of `collect_offer_import_params` (lines
296-298): process one offer with the current attribute map and append its
output dict. -/
def collect_import_step (l : Lookups) (acc : AttrMap × List OfferInfo)
    (o : Offer) : Option (AttrMap × List OfferInfo) := do
  let step ← collect_offer_parameters l acc.1 o
  pure (step.1, acc.2 ++ [step.2.2])

/-- The offer loop of `collect_offer_import_params` (lines 295-299): the
per-offer processing threads only the shared attribute map. -/
def collect_offer_import_params (l : Lookups) (amap : AttrMap)
    (offers : List Offer) : Option (List OfferInfo) := do
  let r ← offers.foldlM (collect_import_step l) (amap, [])
  pure r.2

/-! ## Concrete fixtures used by witnesses and counterexamples -/

/-- A non-dictionary attribute-map entry with a unit pair. -/
def c4_entry : MappingForMarket :=
  { source_id := 9001, dictionary_id := none, data_type := "Decimal"
  , mapping_id := 11, from_unit_id := some 1, to_unit_id := some 2
  , is_rich_content := false, ignore_data_type := false
  , deleted := false, values_map := none }

/-- An attribute-map row whose feed attribute name contains Ё. -/
def c5_row : AttributeMapRow :=
  { id := 21
  , feed_attribute := { name := "Ёлка", unit_id := none }
  , marketplace_attribute :=
    { attr := { source_id := 501, dictionary_id := none, data_type := "String"
              , unit_id := none, is_rich_content := false
              , ignore_data_type := false, disabled := false }
    , deleted := false } }

/-- A dictionary-backed attribute-map entry whose value map resolves raw
`"A"` to one live entry and raw `"B"` to one deleted entry. -/
def c1_entry : MappingForMarket :=
  { source_id := 9002, dictionary_id := some 77, data_type := "String"
  , mapping_id := 12, from_unit_id := none, to_unit_id := none
  , is_rich_content := false, ignore_data_type := false, deleted := false
  , values_map := some [("A", [⟨"a", 101, false⟩]), ("B", [⟨"b", 102, true⟩])] }

/-- Appending resolved assignments under a feed attribute name
(`result['values'].setdefault(attr_name, []).append(...)` batched). -/
def valuesWithAssigns (res : MappedValues) (attr_name : String)
    (assigns : List ResolvedAssignment) : MappedValues :=
  { res with values := dupd res.values attr_name [] (· ++ assigns) }

/-- A marketplace dictionary value whose extracted customs code is `847130`. -/
def c6_row : MarketValueRow :=
  { id := 1, source_id := 555, dictionary_id := some 88
  , value := "847130", deleted := false }

/-- A marketplace dictionary value whose extracted customs code is `847100`. -/
def c6_row_fb : MarketValueRow :=
  { id := 2, source_id := 556, dictionary_id := some 88
  , value := "847100", deleted := false }

/-- Lookups with one required, enabled, dictionary-backed attribute. -/
def c3_lookups : Lookups :=
  { ozon_attributes := [(700, ⟨true, false, some 9, "Цвет"⟩)]
  , unit_rows := [], market_values := []
  , sanitize := id, annotation_clean := id
  , category_deleted := false, ozon_category_id := "1" }

/-- The attribute-map entry mapping feed attribute `Цвет` to attribute 700. -/
def c3_entry : MappingForMarket :=
  { source_id := 700, dictionary_id := some 9, data_type := "String"
  , mapping_id := 12, from_unit_id := none, to_unit_id := none
  , is_rich_content := false, ignore_data_type := false, deleted := false
  , values_map := some [("СИНИЙ", [⟨"blue", 42, false⟩])] }

/-- An attribute map binding `ЦВЕТ` to the entry above. -/
def c3_amap : AttrMap := [("ЦВЕТ", [(12, c3_entry)])]

/-- An offer whose `Цвет` parameter carries the empty string. -/
def c3_offer : Offer :=
  [("@id", .s "1"), ("param", .d [("@name", .s "Цвет"), ("#text", .s "")])]

/-- An empty lookup table: no marketplace attributes, units or values. -/
def c7_lookups : Lookups :=
  { ozon_attributes := [], unit_rows := [], market_values := []
  , sanitize := id, annotation_clean := id
  , category_deleted := false, ozon_category_id := "1" }

/-- A minimal offer carrying only its `@id`. -/
def c7_offer : Offer := [("@id", .s "1")]

/-- The output of `collect_offer_parameters` on `c7_offer` (checked by
`rfl` in the witness). -/
def c7_result : AttrMap × List Nat × OfferInfo :=
  ([], [],
   { barcode := "", category_id := "1", name := "", offer_id := "1"
   , price := none, old_price := .s "", vat := "0.2"
   , height := none, depth := none, width := none
   , dimension_unit := "mm", weight := "0.0", weight_unit := "g"
   , images := [], primary_image := .s "", images360 := []
   , attributes := [], complex_attributes := []
   , attributes_errors := []
   , tags_errors := [("@name/name/model", "missing"), ("dimensions", "missing"),
                     ("picture", "missing"), ("price", "missed")]
   , ready_for_import := false })

/-- A database where two unmapped feed values share the uppercased text
`BLUE` (case variants), one matching marketplace value, one qualifying
attribute map. -/
def c2_db : MapperDB :=
  { value_maps := []
  , feed_values := [⟨1, 10, "Blue"⟩, ⟨2, 10, "BLUE"⟩]
  , market_values := [⟨5, 50, some 20, "BLUE", false⟩]
  , attr_maps := [⟨1, 10, 0, ⟨true, some 20, none⟩⟩] }

/-- Like `c2_db` but with pairwise-distinct uppercased unmapped texts. -/
def c2w_db : MapperDB :=
  { value_maps := []
  , feed_values := [⟨1, 10, "Red"⟩, ⟨2, 10, "BLUE"⟩]
  , market_values := [⟨5, 50, some 20, "BLUE", false⟩]
  , attr_maps := [⟨1, 10, 0, ⟨true, some 20, none⟩⟩] }

/-- The state after one single-mapping run on `c2w_db`. -/
def c2w_db1 : MapperDB := { c2w_db with value_maps := [⟨1, 2, 5⟩] }

/-! ## Helper lemmas on the dict operations -/

theorem dfind?_dset_self {α β : Type} [DecidableEq α] (d : List (α × β)) (k : α) (v : β) :
    dfind? (dset d k v) k = some v := by
  induction d with
  | nil => simp [dset, dfind?]
  | cons p t ih =>
      by_cases h : p.1 = k
      · simp [dset, h, dfind?]
      · simp [dset, h, dfind?, ih]

theorem dfind?_dset_ne {α β : Type} [DecidableEq α] (d : List (α × β)) (k k' : α) (v : β)
    (h : k' ≠ k) : dfind? (dset d k' v) k = dfind? d k := by
  induction d with
  | nil => simp [dset, dfind?, h]
  | cons p t ih =>
      by_cases hp : p.1 = k'
      · simp [dset, hp, dfind?, h]
      · simp [dset, hp, dfind?, ih]

theorem dfind?_dupd_self {α β : Type} [DecidableEq α] (d : List (α × β)) (k : α)
    (dflt : β) (f : β → β) :
    dfind? (dupd d k dflt f) k = some (f ((dfind? d k).getD dflt)) := by
  induction d with
  | nil => simp [dupd, dfind?]
  | cons p t ih =>
      by_cases h : p.1 = k
      · simp [dupd, h, dfind?]
      · simp [dupd, h, dfind?, ih]

theorem dfind?_dupd_ne {α β : Type} [DecidableEq α] (d : List (α × β)) (k k' : α)
    (dflt : β) (f : β → β) (h : k' ≠ k) :
    dfind? (dupd d k' dflt f) k = dfind? d k := by
  induction d with
  | nil => simp [dupd, dfind?, h]
  | cons p t ih =>
      by_cases hp : p.1 = k'
      · simp [dupd, hp, dfind?, h]
      · simp [dupd, hp, dfind?, ih]

theorem dmem_dupd_self {α β : Type} [DecidableEq α] (d : List (α × β)) (k : α)
    (dflt : β) (f : β → β) : dmem (dupd d k dflt f) k = true := by
  simp [dmem, dfind?_dupd_self]

theorem dmem_dupd_mono {α β : Type} [DecidableEq α] (d : List (α × β)) (k k' : α)
    (dflt : β) (f : β → β) (h : dmem d k = true) :
    dmem (dupd d k' dflt f) k = true := by
  by_cases hk : k' = k
  · subst hk; exact dmem_dupd_self d k' dflt f
  · simpa [dmem, dfind?_dupd_ne d k k' dflt f hk] using h

theorem dupd_dupd {α β : Type} [DecidableEq α] (d : List (α × β)) (k : α)
    (i i' : β) (f g : β → β) :
    dupd (dupd d k i f) k i' g = dupd d k i (fun x => g (f x)) := by
  induction d with
  | nil => simp [dupd]
  | cons p t ih =>
      by_cases h : p.1 = k
      · simp [dupd, h]
      · simp [dupd, h, ih]

/-- A fold whose step preserves an observation preserves it overall. -/
theorem foldl_preserve {α σ γ : Type} (f : σ → α → σ) (g : σ → γ)
    (h : ∀ s a, g (f s a) = g s) : ∀ (l : List α) (s : σ), g (l.foldl f s) = g s := by
  intro l
  induction l with
  | nil => intro s; rfl
  | cons a t ih => intro s; rw [List.foldl_cons, ih, h]

/-! ## C9: the `mapped_with_deleted` bucket is initialized and never filled -/

theorem appendDictAssigns_mwd (attr_name : String) (e : MappingForMarket)
    (entries : List ValuesMapEntry) (res : MappedValues) :
    (appendDictAssigns attr_name e entries res).mapped_with_deleted =
      res.mapped_with_deleted := by
  unfold appendDictAssigns
  refine foldl_preserve _ (fun r => r.mapped_with_deleted) ?_ entries res
  intro s a
  by_cases h : a.deleted <;> simp [h]

theorem process_mapping_mwd (vum : List ((Nat × Nat) × PRat)) (attr_name attr_value : String)
    (e : MappingForMarket) (res : MappedValues) :
    (process_mapping vum attr_name attr_value e res).mapped_with_deleted =
      res.mapped_with_deleted := by
  unfold process_mapping
  by_cases h1 : e.deleted
  · simp [h1]
  · by_cases h2 : attr_value = ""
    · simp [h1, h2]
    · by_cases h3 : e.dictionary_id.isSome
      · simp only [h1, h2, h3]
        simp only [if_false, if_true, Bool.false_eq_true]
        cases hfind : dfind? (e.values_map.getD []) (pyUpper attr_value) with
        | none => simp
        | some entries =>
            simp only []
            by_cases hm : dmem (appendDictAssigns attr_name e entries res).values attr_name
            · simp [hm, appendDictAssigns_mwd]
            · simp [hm, appendDictAssigns_mwd]
      · simp only [h1, h2, h3]
        simp only [if_false, if_true, Bool.false_eq_true]
        cases hm : (match e.from_unit_id, e.to_unit_id with
          | some f, some t => dfind? vum (f, t)
          | _, _ => none) with
        | none => simp
        | some m =>
            by_cases hz : m.isZero
            · simp [hz]
            · cases hp : pyFloat (strReplaceChar attr_value ',' '.') <;> simp [hz, hp]

theorem process_value_mwd (vum : List ((Nat × Nat) × PRat)) (amap : AttrMap)
    (attr_name attr_value : String) (res : MappedValues) :
    (process_value vum amap attr_name attr_value res).mapped_with_deleted =
      res.mapped_with_deleted := by
  unfold process_value
  cases h : dfind? amap attr_name with
  | none => simp
  | some bucket =>
      cases bucket with
      | nil => simp
      | cons b bs =>
          simp only []
          exact foldl_preserve _ (fun r => r.mapped_with_deleted)
            (fun s a => process_mapping_mwd vum attr_name attr_value a.2 s) (b :: bs) res

/-- C9: for every input, the result of `get_mapped_values` carries the
seventh bucket `mapped_with_deleted` and it is always the empty list: the
resolver initializes it and never appends to it. -/
theorem mapped_with_deleted_bucket_always_empty
    (vum : List ((Nat × Nat) × PRat)) (attribute_map : AttrMap)
    (feed_attribute_values : List (String × List String)) :
    (get_mapped_values_core vum attribute_map feed_attribute_values).mapped_with_deleted
      = [] := by
  unfold get_mapped_values_core
  have h := foldl_preserve
    (fun (res : MappedValues) (p : String × List String) =>
      p.2.foldl (fun r v => process_value vum attribute_map p.1 v r) res)
    (fun r => r.mapped_with_deleted) ?_ feed_attribute_values initMappedValues
  · rw [h]; rfl
  · intro s a
    exact foldl_preserve _ (fun r => r.mapped_with_deleted)
      (fun s v => process_value_mwd vum attribute_map a.1 v s) a.2 s

/-! ## C4: zero conversion factors -/

theorem get_unit_map_aux_zero (rows : List ValueUnitMap) (r : ValueUnitMap)
    (hr : r ∈ rows) (hz : r.multiplier.isZero = true) :
    ∀ acc, get_unit_map_aux acc rows = none := by
  induction rows with
  | nil => cases hr
  | cons p t ih =>
      intro acc
      by_cases hp : p.multiplier.isZero
      · simp [get_unit_map_aux, hp]
      · rcases List.mem_cons.mp hr with h | h
        · subst h; exact absurd hz (by simp [hp])
        · simp [get_unit_map_aux, hp, ih h]

theorem get_unit_map_aux_some (rows : List ValueUnitMap)
    (hz : ∀ r ∈ rows, r.multiplier.isZero = false) :
    ∀ acc, ∃ m, get_unit_map_aux acc rows = some m := by
  induction rows with
  | nil => intro acc; exact ⟨acc, rfl⟩
  | cons p t ih =>
      intro acc
      have hp := hz p (by simp)
      have ih' := ih (fun r hr => hz r (by simp [hr]))
      simp [get_unit_map_aux, hp]
      exact ih' _

/-- C4 (amended): a stored zero conversion factor makes `get_unit_map`
raise `ZeroDivisionError` (modelled `none`); and when a zero factor is
looked up in a supplied unit map, the resolver's falsy check treats it as
"no usable conversion" and passes the raw value through unconverted. -/
theorem zero_factor_no_conversion :
    (∀ (rows : List ValueUnitMap) (r : ValueUnitMap), r ∈ rows →
      r.multiplier.isZero = true → get_unit_map rows = none) ∧
    (∀ (vum : List ((Nat × Nat) × PRat)) (n v : String) (e : MappingForMarket)
      (res : MappedValues) (f t : Nat) (m : PRat),
      e.deleted = false → v ≠ "" → e.dictionary_id = none →
      e.from_unit_id = some f → e.to_unit_id = some t →
      dfind? vum (f, t) = some m → m.isZero = true →
      process_mapping vum n v e res =
        { res with values := dupd res.values n [] (· ++ [mkPlainAssign v e]) }) := by
  constructor
  · intro rows r hr hz
    exact get_unit_map_aux_zero rows r hr hz []
  · intro vum n v e res f t m hdel hv hdict hf ht hfind hz
    unfold process_mapping
    simp [hdel, hv, hdict, hf, ht, hfind, hz]

/-- Witness for C4's amended theorem at a concrete zero-factor state. -/
theorem zero_factor_no_conversion_witness :
    get_unit_map [⟨1, 2, ⟨0, 1⟩⟩] = none ∧
    process_mapping [((1, 2), ⟨0, 1⟩)] "ДЛИНА" "5" c4_entry initMappedValues =
      { initMappedValues with
          values := dupd initMappedValues.values "ДЛИНА" [] (· ++ [mkPlainAssign "5" c4_entry]) } := by
  constructor
  · exact zero_factor_no_conversion.1 [⟨1, 2, ⟨0, 1⟩⟩] ⟨1, 2, ⟨0, 1⟩⟩ (by decide) (by decide)
  · exact zero_factor_no_conversion.2 [((1, 2), ⟨0, 1⟩)] "ДЛИНА" "5" c4_entry initMappedValues
      1 2 ⟨0, 1⟩ rfl (by decide) rfl rfl rfl (by decide) (by decide)

/-- C4 counterexample: the claim as stated ("building the unit index and
resolving values does not crash") is false — the very first step raises on a
zero-factor row. -/
theorem zero_factor_unit_index_crash :
    get_unit_map [⟨1, 2, ⟨0, 1⟩⟩] = none ∧
    get_mapped_values [⟨1, 2, ⟨0, 1⟩⟩] [] [("ДЛИНА", ["5"])] = none := by
  exact ⟨rfl, rfl⟩

/-! ## C8: the unit index and reciprocal entries -/

theorem get_unit_map_aux_append (l1 l2 : List ValueUnitMap) :
    ∀ acc, get_unit_map_aux acc (l1 ++ l2) =
      (get_unit_map_aux acc l1).bind (fun a => get_unit_map_aux a l2) := by
  induction l1 with
  | nil => intro acc; simp [get_unit_map_aux]
  | cons p t ih =>
      intro acc
      by_cases hp : p.multiplier.isZero
      · simp [get_unit_map_aux, hp]
      · simp [get_unit_map_aux, hp, ih]

theorem get_unit_map_aux_preserves (l : List ValueUnitMap) (k : Nat × Nat)
    (hk : ∀ p ∈ l, (p.value_unit_from_id, p.value_unit_to_id) ≠ k ∧
      (p.value_unit_to_id, p.value_unit_from_id) ≠ k) :
    ∀ acc m, get_unit_map_aux acc l = some m → dfind? m k = dfind? acc k := by
  induction l with
  | nil => intro acc m h; cases h; rfl
  | cons p t ih =>
      intro acc m h
      by_cases hp : p.multiplier.isZero
      · simp [get_unit_map_aux, hp] at h
      · simp only [get_unit_map_aux, hp, if_false, Bool.false_eq_true] at h
        have hk2 := hk p (by simp)
        rw [ih (fun q hq => hk q (by simp [hq])) _ m h,
          dfind?_dset_ne _ _ _ _ hk2.2, dfind?_dset_ne _ _ _ _ hk2.1]

/-- C8 (amended): for every stored conversion row with a nonzero factor and
distinct units, in a table where no other row reuses either orientation of
its unit pair and all factors are nonzero, the built index contains both the
forward entry and the reciprocal entry. -/
theorem unit_index_contains_both_directions (rows : List ValueUnitMap)
    (hz : ∀ r ∈ rows, r.multiplier.isZero = false)
    (hne : ∀ r ∈ rows, r.value_unit_from_id ≠ r.value_unit_to_id)
    (hpair : rows.Pairwise (fun a b =>
      (a.value_unit_from_id, a.value_unit_to_id) ≠ (b.value_unit_from_id, b.value_unit_to_id) ∧
      (a.value_unit_from_id, a.value_unit_to_id) ≠ (b.value_unit_to_id, b.value_unit_from_id) ∧
      (a.value_unit_to_id, a.value_unit_from_id) ≠ (b.value_unit_from_id, b.value_unit_to_id) ∧
      (a.value_unit_to_id, a.value_unit_from_id) ≠ (b.value_unit_to_id, b.value_unit_from_id)))
    (r : ValueUnitMap) (hr : r ∈ rows) :
    ((get_unit_map rows).bind
        (fun m => dfind? m (r.value_unit_from_id, r.value_unit_to_id)))
      = some r.multiplier ∧
    ((get_unit_map rows).bind
        (fun m => dfind? m (r.value_unit_to_id, r.value_unit_from_id)))
      = some r.multiplier.inv := by
  obtain ⟨pre, post, hsplit⟩ := List.append_of_mem hr
  subst hsplit
  obtain ⟨m0, hm0⟩ := get_unit_map_aux_some pre
    (fun q hq => hz q (by simp [hq])) []
  have hrz : r.multiplier.isZero = false := hz r (by simp)
  obtain ⟨m, hm⟩ := get_unit_map_aux_some post
    (fun q hq => hz q (by simp [hq]))
    (dset (dset m0 (r.value_unit_from_id, r.value_unit_to_id) r.multiplier)
      (r.value_unit_to_id, r.value_unit_from_id) r.multiplier.inv)
  have hpost : ∀ q ∈ post,
      ((q.value_unit_from_id, q.value_unit_to_id) ≠
        (r.value_unit_from_id, r.value_unit_to_id) ∧
       (q.value_unit_to_id, q.value_unit_from_id) ≠
        (r.value_unit_from_id, r.value_unit_to_id)) ∧
      ((q.value_unit_from_id, q.value_unit_to_id) ≠
        (r.value_unit_to_id, r.value_unit_from_id) ∧
       (q.value_unit_to_id, q.value_unit_from_id) ≠
        (r.value_unit_to_id, r.value_unit_from_id)) := by
    intro q hq
    have h1 := (List.pairwise_append.mp hpair).2.1
    have h2 := (List.pairwise_cons.mp h1).1 q hq
    exact ⟨⟨Ne.symm h2.1, Ne.symm h2.2.1⟩, ⟨Ne.symm h2.2.2.1, Ne.symm h2.2.2.2⟩⟩
  have htotal : get_unit_map (pre ++ r :: post) = some m := by
    unfold get_unit_map
    rw [get_unit_map_aux_append, hm0]
    show get_unit_map_aux m0 (r :: post) = some m
    simp only [get_unit_map_aux, hrz, Bool.false_eq_true, if_false]
    exact hm
  have hrne := hne r (by simp)
  have hkey1 : dfind? m (r.value_unit_from_id, r.value_unit_to_id) = some r.multiplier := by
    rw [get_unit_map_aux_preserves post _ (fun q hq => (hpost q hq).1) _ m hm]
    rw [dfind?_dset_ne _ _ _ _ (fun h => hrne (congrArg Prod.snd h))]
    exact dfind?_dset_self _ _ _
  have hkey2 : dfind? m (r.value_unit_to_id, r.value_unit_from_id) = some r.multiplier.inv := by
    rw [get_unit_map_aux_preserves post _ (fun q hq => (hpost q hq).2) _ m hm]
    exact dfind?_dset_self _ _ _
  rw [htotal]
  exact ⟨hkey1, hkey2⟩

/-- Witness for C8's amended theorem on a concrete one-row table. -/
theorem unit_index_both_directions_witness :
    ((get_unit_map [⟨1, 2, ⟨2, 1⟩⟩]).bind (fun m => dfind? m (1, 2))) = some ⟨2, 1⟩ ∧
    ((get_unit_map [⟨1, 2, ⟨2, 1⟩⟩]).bind (fun m => dfind? m (2, 1))) =
      some (PRat.inv ⟨2, 1⟩) := by
  exact unit_index_contains_both_directions [⟨1, 2, ⟨2, 1⟩⟩]
    (by decide) (by decide) (by simp) ⟨1, 2, ⟨2, 1⟩⟩ (by simp)

/-- C8 counterexample: with two stored rows over the same unit pair the later
row overwrites the earlier one's entries, so the index does not contain
`(from,to) -> factor` for the first row (it holds `4`, not `2`). -/
theorem duplicate_pair_overwrites_unit_entry :
    (⟨1, 2, ⟨2, 1⟩⟩ : ValueUnitMap) ∈
      ([⟨1, 2, ⟨2, 1⟩⟩, ⟨1, 2, ⟨4, 1⟩⟩] : List ValueUnitMap) ∧
    ((get_unit_map [⟨1, 2, ⟨2, 1⟩⟩, ⟨1, 2, ⟨4, 1⟩⟩]).bind (fun m => dfind? m (1, 2)))
      = some ⟨4, 1⟩ ∧
    (⟨4, 1⟩ : PRat) ≠ ⟨2, 1⟩ := by
  refine ⟨by simp, by decide, by decide⟩

/-! ## C5: name normalization keeps Ё -/

theorem foldl_dupd_dmem_mono {α : Type} (key : α → String)
    (f : α → List (Nat × MappingForMarket) → List (Nat × MappingForMarket)) :
    ∀ (l : List α) (acc : AttrMap) (k : String), dmem acc k = true →
      dmem (l.foldl (fun a r => dupd a (key r) [] (f r)) acc) k = true := by
  intro l
  induction l with
  | nil => intro acc k h; exact h
  | cons r t ih =>
      intro acc k h
      exact ih _ k (dmem_dupd_mono _ _ _ _ _ h)

theorem foldl_dupd_dmem_of_mem {α : Type} (key : α → String)
    (f : α → List (Nat × MappingForMarket) → List (Nat × MappingForMarket)) :
    ∀ (l : List α) (acc : AttrMap) (r : α), r ∈ l →
      dmem (l.foldl (fun a r => dupd a (key r) [] (f r)) acc) (key r) = true := by
  intro l
  induction l with
  | nil => intro acc r h; cases h
  | cons p t ih =>
      intro acc r h
      rcases List.mem_cons.mp h with h | h
      · subst h
        exact foldl_dupd_dmem_mono key f t _ _ (dmem_dupd_self _ _ _ _)
      · exact ih _ r h

theorem mem_dropWhile_of_mem {c : Char} {p : Char → Bool} :
    ∀ l : List Char, c ∈ l → p c = false → c ∈ l.dropWhile p := by
  intro l
  induction l with
  | nil => intro h; cases h
  | cons x t ih =>
      intro h hc
      rcases List.mem_cons.mp h with h | h
      · subst h; simp [List.dropWhile, hc]
      · by_cases hx : p x
        · simpa [List.dropWhile, hx] using ih h hc
        · simp [List.dropWhile, hx, List.mem_cons, h]

theorem mem_pyStrip_of_mem {c : Char} (s : String) (h : c ∈ s.data)
    (hc : isPyWs c = false) : c ∈ (pyStrip s).data := by
  unfold pyStrip
  show c ∈ ((s.data.dropWhile isPyWs).reverse.dropWhile isPyWs).reverse
  rw [List.mem_reverse]
  refine mem_dropWhile_of_mem _ ?_ hc
  rw [List.mem_reverse]
  exact mem_dropWhile_of_mem _ h hc

/-- C5 (amended): the Mapping Graph Reader keys the attribute map by
`normalize_string` (trim, uppercase, no-break space → space), which does not
replace Ё: a feed attribute name containing Ё keeps its Ё in the key.  The
Ё→Е replacement lives in the feed attribute fetcher's `standardize_str`
instead. -/
theorem reader_keys_keep_yo :
    (∀ (rows : List AttributeMapRow) (r : AttributeMapRow), r ∈ rows →
      r.marketplace_attribute.attr.disabled = false →
      dmem (get_category_attribute_map_attrs rows)
        (normalize_string r.feed_attribute.name) = true) ∧
    (∀ s : String, 'Ё' ∈ s.data → 'Ё' ∈ (normalize_string s).data) ∧
    (∀ s : String, 'Ё' ∉ (standardize_str s).data) := by
  refine ⟨?_, ?_, ?_⟩
  · intro rows r hr hd
    unfold get_category_attribute_map_attrs
    refine foldl_dupd_dmem_of_mem
      (fun r => normalize_string r.feed_attribute.name)
      (fun r bucket => dsetdefault bucket r.id (attrMapEntryOfRow r))
      _ [] r ?_
    exact List.mem_filter.mpr ⟨hr, by simp [hd]⟩
  · intro s h
    unfold normalize_string strReplaceChar pyUpper
    show 'Ё' ∈ ((pyStrip s).data.map pyUpperChar).map
      (fun c => if c = nbspChar then ' ' else c)
    have h1 : 'Ё' ∈ (pyStrip s).data := mem_pyStrip_of_mem s h (by decide)
    have h2 : 'Ё' ∈ (pyStrip s).data.map pyUpperChar :=
      List.mem_map.mpr ⟨'Ё', h1, by decide⟩
    exact List.mem_map.mpr ⟨'Ё', h2, by decide⟩
  · intro s h
    unfold standardize_str strReplaceChar pyUpper at h
    have h1 := List.mem_map.mp h
    obtain ⟨c, hc, heq⟩ := h1
    by_cases hnb : c = nbspChar
    · rw [hnb] at heq; simp at heq
    · simp [hnb] at heq
      subst heq
      obtain ⟨c2, _, heq2⟩ := List.mem_map.mp hc
      by_cases hy : c2 = 'Ё'
      · rw [hy] at heq2; simp at heq2
      · simp [hy] at heq2

/-- Witness for C5's amended theorem on a concrete Ё-named attribute. -/
theorem reader_keys_keep_yo_witness :
    dmem (get_category_attribute_map_attrs [c5_row])
      (normalize_string c5_row.feed_attribute.name) = true ∧
    'Ё' ∈ (normalize_string "Ёлка").data ∧
    'Ё' ∉ (standardize_str "Ёлка").data := by
  refine ⟨reader_keys_keep_yo.1 [c5_row] c5_row (by simp) rfl,
    reader_keys_keep_yo.2.1 "Ёлка" (by decide),
    reader_keys_keep_yo.2.2 "Ёлка"⟩

/-- C5 counterexample: the reader keys the map by `"ЁЛКА"`, not by the
Ё→Е-substituted `"ЕЛКА"` the claim requires. -/
theorem reader_key_not_yo_substituted :
    normalize_string "Ёлка" = "ЁЛКА" ∧
    dmem (get_category_attribute_map_attrs [c5_row]) "ЕЛКА" = false ∧
    dmem (get_category_attribute_map_attrs [c5_row]) "ЁЛКА" = true := by
  refine ⟨by decide, by decide, by decide⟩

/-! ## C1: the dictionary hit path and `mapped_with_deleted_value` -/

theorem valuesWithAssigns_comp (res : MappedValues) (n : String)
    (xs ys : List ResolvedAssignment) :
    valuesWithAssigns (valuesWithAssigns res n xs) n ys =
      valuesWithAssigns res n (xs ++ ys) := by
  unfold valuesWithAssigns
  have hfun : (fun x => x ++ xs ++ ys) = (fun x => x ++ (xs ++ ys)) := by
    funext x; rw [List.append_assoc]
  simp only [dupd_dupd, hfun]

theorem appendDictAssigns_eq (attr_name : String) (e : MappingForMarket) :
    ∀ (entries : List ValuesMapEntry) (res : MappedValues),
      appendDictAssigns attr_name e entries res =
        (if entries.filter (fun x => ¬ x.deleted) = [] then res
         else valuesWithAssigns res attr_name
            ((entries.filter (fun x => ¬ x.deleted)).map (fun x => mkDictAssign x e))) := by
  intro entries
  induction entries with
  | nil => intro res; simp [appendDictAssigns]
  | cons v rest ih =>
      intro res
      by_cases hv : v.deleted
      · have hstep : appendDictAssigns attr_name e (v :: rest) res =
            appendDictAssigns attr_name e rest res := by
          simp [appendDictAssigns, hv]
        have hfilter : (v :: rest).filter (fun x => ¬ x.deleted) =
            rest.filter (fun x => ¬ x.deleted) := by simp [hv]
        rw [hstep, ih res, hfilter]
      · have hstep : appendDictAssigns attr_name e (v :: rest) res =
            appendDictAssigns attr_name e rest
              (valuesWithAssigns res attr_name [mkDictAssign v e]) := by
          simp [appendDictAssigns, hv, valuesWithAssigns]
        have hfilter : (v :: rest).filter (fun x => ¬ x.deleted) =
            v :: rest.filter (fun x => ¬ x.deleted) := by simp [hv]
        rw [hstep, ih, hfilter, if_neg (List.cons_ne_nil _ _)]
        by_cases hrest : rest.filter (fun x => ¬ x.deleted) = []
        · rw [if_pos hrest, hrest]; rfl
        · rw [if_neg hrest, valuesWithAssigns_comp]
          rw [List.map_cons, List.singleton_append]

theorem process_mapping_dict_hit (vum : List ((Nat × Nat) × PRat))
    (attr_name attr_value : String) (e : MappingForMarket) (res : MappedValues)
    (entries : List ValuesMapEntry)
    (hdel : e.deleted = false) (hv : attr_value ≠ "")
    (hdict : e.dictionary_id.isSome = true)
    (hfind : dfind? (e.values_map.getD []) (pyUpper attr_value) = some entries) :
    process_mapping vum attr_name attr_value e res =
      (if entries.filter (fun x => ¬ x.deleted) = [] then
        (if dmem res.values attr_name then res
         else { res with mapped_with_deleted_value :=
            res.mapped_with_deleted_value ++ [e.source_id] })
       else valuesWithAssigns res attr_name
          ((entries.filter (fun x => ¬ x.deleted)).map (fun x => mkDictAssign x e))) := by
  unfold process_mapping
  simp only [hdel, hv, hdict, hfind, if_false, if_true, Bool.false_eq_true]
  rw [appendDictAssigns_eq]
  by_cases hlive : entries.filter (fun x => ¬ x.deleted) = []
  · rw [if_pos hlive, if_pos hlive]
  · rw [if_neg hlive, if_neg hlive]
    have hmem : dmem (valuesWithAssigns res attr_name
        ((entries.filter (fun x => ¬ x.deleted)).map (fun x => mkDictAssign x e))).values
        attr_name = true := dmem_dupd_self _ _ _ _
    rw [if_pos hmem]

/-- C1 (amended): on a dictionary hit the resolver appends one resolved
assignment per non-deleted value-map entry, and it records the source id
under `mapped_with_deleted_value` exactly when every entry matching that raw
value is deleted AND no assignment has yet been recorded under that feed
attribute name by an earlier raw value or mapping. -/
theorem dict_hit_appends_and_records (vum : List ((Nat × Nat) × PRat))
    (attr_name attr_value : String) (e : MappingForMarket) (res : MappedValues)
    (entries : List ValuesMapEntry)
    (hdel : e.deleted = false) (hv : attr_value ≠ "")
    (hdict : e.dictionary_id.isSome = true)
    (hfind : dfind? (e.values_map.getD []) (pyUpper attr_value) = some entries) :
    ((entries.filter (fun x => ¬ x.deleted) ≠ [] →
      process_mapping vum attr_name attr_value e res =
        valuesWithAssigns res attr_name
          ((entries.filter (fun x => ¬ x.deleted)).map (fun x => mkDictAssign x e))) ∧
     (entries.filter (fun x => ¬ x.deleted) = [] → dmem res.values attr_name = false →
      process_mapping vum attr_name attr_value e res =
        { res with mapped_with_deleted_value :=
            res.mapped_with_deleted_value ++ [e.source_id] }) ∧
     (entries.filter (fun x => ¬ x.deleted) = [] → dmem res.values attr_name = true →
      process_mapping vum attr_name attr_value e res = res)) := by
  have h := process_mapping_dict_hit vum attr_name attr_value e res entries hdel hv hdict hfind
  refine ⟨?_, ?_, ?_⟩
  · intro hlive; rw [h, if_neg hlive]
  · intro hlive hm; rw [h, if_pos hlive, if_neg (by rw [hm]; exact Bool.false_ne_true)]
  · intro hlive hm; rw [h, if_pos hlive, if_pos hm]

/-- Witness for C1's amended theorem: an all-deleted hit with nothing yet
resolved under the name records the source id. -/
theorem dict_hit_appends_and_records_witness :
    process_mapping [] "ЦВЕТ" "B" c1_entry initMappedValues =
      { initMappedValues with mapped_with_deleted_value := [9002] } := by
  have h := (dict_hit_appends_and_records [] "ЦВЕТ" "B" c1_entry initMappedValues
    [⟨"b", 102, true⟩] rfl (by decide) rfl (by decide)).2.1 (by decide) (by decide)
  exact h.trans (by decide)

/-- C1 counterexample: for raw value `"B"` every matching value-map entry is
deleted, yet nothing is recorded under `mapped_with_deleted_value`, because
the earlier raw value `"A"` already resolved under the same feed attribute
name — the recording is not independent of other raw values. -/
theorem mapped_with_deleted_value_not_independent :
    c1_entry.deleted = false ∧ c1_entry.dictionary_id.isSome = true ∧
    dfind? (c1_entry.values_map.getD []) (pyUpper "B") = some [⟨"b", 102, true⟩] ∧
    (∀ x ∈ ([⟨"b", 102, true⟩] : List ValuesMapEntry), x.deleted = true) ∧
    (get_mapped_values_core [] [("ЦВЕТ", [(12, c1_entry)])]
        [("ЦВЕТ", ["A", "B"])]).mapped_with_deleted_value = [] := by
  refine ⟨rfl, rfl, by decide, by decide, by decide⟩

/-! ## C6: customs-code prefix matching -/

theorem tn_ved_shorten_go_spec (d : List (String × (String × Nat))) (v : String × Nat) :
    ∀ (fuel : Nat) (l : List Char) (k : Nat), l.length ≤ fuel → 4 ≤ k → k ≤ l.length →
      dfind? d (⟨l.take k⟩ : String) = some v →
      (∀ j, j ∈ List.range (l.length + 1) → k < j →
        dfind? d (⟨l.take j⟩ : String) = none) →
      tn_ved_shorten_go d fuel l = some v := by
  intro fuel
  induction fuel with
  | zero =>
      intro l k hfuel hk4 hkl _ _
      omega
  | succ fuel ih =>
      intro l k hfuel hk4 hkl hfind hnone
      have h4l : 4 ≤ l.length := le_trans hk4 hkl
      by_cases hkeq : k = l.length
      · have htake : l.take k = l := by
          rw [hkeq]; exact List.take_length l
        rw [htake] at hfind
        simp [tn_ved_shorten_go, h4l, hfind]
      · have hklt : k < l.length := lt_of_le_of_ne hkl hkeq
        have hd : dfind? d (⟨l⟩ : String) = none := by
          have := hnone l.length (List.mem_range.mpr (by omega)) hklt
          rwa [List.take_length] at this
        have hlen1 : l.dropLast.length = l.length - 1 := List.length_dropLast l
        have htt : ∀ j, j ≤ l.length - 1 → l.dropLast.take j = l.take j := by
          intro j hj
          rw [List.dropLast_eq_take, List.take_take]
          congr 1
          omega
        have hrec := ih l.dropLast k (by omega) hk4 (by omega)
          (by rw [htt k (by omega)]; exact hfind)
          (by
            intro j hj hkj
            have hj' : j ≤ l.length - 1 := by
              have := List.mem_range.mp hj
              omega
            rw [htt j hj']
            exact hnone j (List.mem_range.mpr (by omega)) hkj)
        simp [tn_ved_shorten_go, h4l, hd]
        exact hrec

theorem tn_ved_shorten_go_none (d : List (String × (String × Nat))) :
    ∀ (fuel : Nat) (l : List Char), l.length ≤ fuel →
      (∀ j, j ∈ List.range (l.length + 1) → 4 ≤ j →
        dfind? d (⟨l.take j⟩ : String) = none) →
      tn_ved_shorten_go d fuel l = none := by
  intro fuel
  induction fuel with
  | zero => intro l _ _; rfl
  | succ fuel ih =>
      intro l hfuel hnone
      by_cases h4l : 4 ≤ l.length
      · have hd : dfind? d (⟨l⟩ : String) = none := by
          have := hnone l.length (List.mem_range.mpr (by omega)) h4l
          rwa [List.take_length] at this
        have hlen1 : l.dropLast.length = l.length - 1 := List.length_dropLast l
        have htt : ∀ j, j ≤ l.length - 1 → l.dropLast.take j = l.take j := by
          intro j hj
          rw [List.dropLast_eq_take, List.take_take]
          congr 1
          omega
        have hrec := ih l.dropLast (by omega)
          (by
            intro j hj hj4
            have hj' : j ≤ l.length - 1 := by
              have := List.mem_range.mp hj
              omega
            rw [htt j hj']
            exact hnone j (List.mem_range.mpr (by omega)) hj4)
        simp [tn_ved_shorten_go, h4l, hd]
        exact hrec
      · simp [tn_ved_shorten_go, h4l]

/-- C6 (amended): the matcher tries progressively shorter prefixes of the
offer's raw code string (spaces included) down to length 4 — resolving to
the entry of the longest prefix present in the per-attribute dictionary —
and when no such prefix matches and the leftover has length 3 (i.e. the raw
code has at least 3 characters) it falls back to the first four characters
of the raw code plus "00".  Hence `"8471 30 000 0"` does not match an entry
with extracted code `"847130"`; the space-free `"847130000"` does, and
`"8471 30 000 0"` resolves against an entry with extracted code `"847100"`
via the fallback. -/
theorem tn_ved_longest_prefix_then_fallback :
    (∀ (d : List (String × (String × Nat))) (v : String × Nat) (l : List Char) (k : Nat),
      4 ≤ k → k ≤ l.length → dfind? d (⟨l.take k⟩ : String) = some v →
      (∀ j, j ∈ List.range (l.length + 1) → k < j →
        dfind? d (⟨l.take j⟩ : String) = none) →
      tn_ved_match d (⟨l⟩ : String) = some v) ∧
    (∀ (d : List (String × (String × Nat))) (l : List Char),
      (∀ j, j ∈ List.range (l.length + 1) → 4 ≤ j →
        dfind? d (⟨l.take j⟩ : String) = none) →
      3 ≤ l.length →
      tn_ved_match d (⟨l⟩ : String) = dfind? d ((⟨l.take 4⟩ : String) ++ "00")) ∧
    tn_ved_match (tn_ved_values_by_code [c6_row] (some 88)) "847130000" =
      some ("847130", 555) ∧
    tn_ved_match (tn_ved_values_by_code [c6_row_fb] (some 88)) "8471 30 000 0" =
      some ("847100", 556) := by
  refine ⟨?_, ?_, by decide, by decide⟩
  · intro d v l k hk4 hkl hfind hnone
    unfold tn_ved_match tn_ved_shorten
    rw [tn_ved_shorten_go_spec d v l.length l k (le_refl _) hk4 hkl hfind hnone]
  · intro d l hnone h3
    unfold tn_ved_match tn_ved_shorten
    rw [tn_ved_shorten_go_none d l.length l (le_refl _) hnone]
    rw [if_pos h3]

/-- Witness for C6's amended theorem: the longest-prefix clause applied to a
concrete dictionary and code. -/
theorem tn_ved_longest_prefix_witness :
    tn_ved_match [("847130", ("v", 5))] (⟨("847130000").data⟩ : String) =
      some ("v", 5) := by
  exact tn_ved_longest_prefix_then_fallback.1 [("847130", ("v", 5))] ("v", 5)
    ("847130000").data 6 (by decide) (by decide) (by decide) (by decide)

/-- C6 counterexample: the offer code `"8471 30 000 0"` of Scenario E does
NOT resolve against a dictionary entry whose extracted code is `"847130"`
(the prefixes of the raw code keep their spaces, and the fallback key is
`"847100"`). -/
theorem tn_ved_spaced_code_misses :
    extract_tn_ved_code "847130" = "847130" ∧
    tn_ved_values_by_code [c6_row] (some 88) = [("847130", ("847130", 555))] ∧
    tn_ved_match (tn_ved_values_by_code [c6_row] (some 88)) "8471 30 000 0" = none := by
  refine ⟨by decide, by decide, by decide⟩

/-! ## C10: `add_if_exists` on empty-string versus `None` fallback values -/

/-- C10: for a known required attribute, a fallback value equal to the empty
string is recorded as an `empty` error AND still assigned (which removes the
attribute from the outstanding-required list), whereas `None` records
`missing` and assigns nothing. -/
theorem add_if_exists_empty_vs_missing (oz : List (Nat × OzonAttrData))
    (st : CollectState) (errors : List (Nat × String)) (sid : Nat) (d : OzonAttrData)
    (hfound : dfind? oz sid = some d) (hreq : d.required = true) :
    add_if_exists oz st errors [sid] (some (.s "")) =
      (add_attribute_value st sid "" 0, dset errors sid "empty") ∧
    (add_attribute_value st sid "" 0).required_ozon_attributes =
      st.required_ozon_attributes.filter (· ≠ sid) ∧
    add_if_exists oz st errors [sid] none = (st, dset errors sid "missing") := by
  have hmem : dmem oz sid = true := by simp [dmem, hfound]
  have herr : ∀ e, add_error oz errors sid e = dset errors sid e := by
    intro e
    unfold add_error
    rw [hfound]
    simp [hreq]
  refine ⟨?_, rfl, ?_⟩
  · unfold add_if_exists
    simp only [hmem, Bool.true_eq_false, not_true, if_false]
    rw [herr]
    rfl
  · unfold add_if_exists
    simp only [hmem, Bool.true_eq_false, not_true, if_false]
    rw [herr]

/-- Witness for C10 on a concrete required attribute. -/
theorem add_if_exists_empty_vs_missing_witness :
    add_if_exists [(4180, ⟨true, false, none, "Название"⟩)]
        ⟨[], [], [4180, 4497]⟩ [] [4180] (some (.s "")) =
      (add_attribute_value ⟨[], [], [4180, 4497]⟩ 4180 "" 0, dset [] 4180 "empty") ∧
    (add_attribute_value ⟨[], [], [4180, 4497]⟩ 4180 "" 0).required_ozon_attributes =
      ([4180, 4497] : List Nat).filter (· ≠ 4180) ∧
    add_if_exists [(4180, ⟨true, false, none, "Название"⟩)]
        ⟨[], [], [4180, 4497]⟩ [] [4180] none =
      (⟨[], [], [4180, 4497]⟩, dset [] 4180 "missing") := by
  exact add_if_exists_empty_vs_missing [(4180, ⟨true, false, none, "Название"⟩)]
    ⟨[], [], [4180, 4497]⟩ [] 4180 ⟨true, false, none, "Название"⟩ (by decide) rfl

/-! ## C3: the final consolidation of outstanding required attributes -/

theorem dfind?_append_single_not_mem {α β : Type} [DecidableEq α]
    (d : List (α × β)) (k : α) (v : β) (h : dmem d k = false) :
    dfind? (d ++ [(k, v)]) k = some v := by
  induction d with
  | nil => simp [dfind?]
  | cons p t ih =>
      by_cases hp : p.1 = k
      · exfalso; simp [dmem, dfind?, hp] at h
      · have h' : dmem t k = false := by
          simpa [dmem, dfind?, hp] using h
        rw [List.cons_append]
        simp [dfind?, hp]
        exact ih h'

theorem dfind?_append_single_ne {α β : Type} [DecidableEq α]
    (d : List (α × β)) (k k' : α) (v : β) (h : k' ≠ k) :
    dfind? (d ++ [(k', v)]) k = dfind? d k := by
  induction d with
  | nil => simp [dfind?, h]
  | cons p t ih =>
      by_cases hp : p.1 = k
      · simp [dfind?, hp]
      · rw [List.cons_append]
        simp [dfind?, hp, ih]

theorem dfind?_dsetdefault_ne {α β : Type} [DecidableEq α]
    (d : List (α × β)) (k k' : α) (v : β) (h : k' ≠ k) :
    dfind? (dsetdefault d k' v) k = dfind? d k := by
  unfold dsetdefault
  by_cases hm : dmem d k'
  · simp [hm]
  · simp only [hm, if_false, Bool.false_eq_true]
    exact dfind?_append_single_ne d k k' v h

theorem foldlM_cons_opt {σ α : Type} (f : σ → α → Option σ) (a : α) (t : List α) (s : σ) :
    List.foldlM f s (a :: t) = (List.foldlM f s [a]).bind (fun s2 => List.foldlM f s2 t) := by
  simp only [List.foldlM_cons, List.foldlM_nil]
  cases f s a <;> rfl

theorem consolidate_cons (oz : List (Nat × OzonAttrData))
    (mappings : List (Nat × (String × Nat))) (fp : List (String × List String))
    (p : Nat) (rest : List Nat) (errs : List (Nat × String)) :
    consolidate_required oz mappings fp (p :: rest) errs =
      (consolidate_required oz mappings fp [p] errs).bind
        (fun e => consolidate_required oz mappings fp rest e) := by
  unfold consolidate_required
  exact foldlM_cons_opt _ p rest errs

/-- The one-step consolidation outcomes, by cases. -/
theorem consolidate_single (oz : List (Nat × OzonAttrData))
    (mappings : List (Nat × (String × Nat))) (fp : List (String × List String))
    (p : Nat) (errs : List (Nat × String)) :
    consolidate_required oz mappings fp [p] errs =
      (if dmem errs p then some errs
       else
        match dfind? oz p with
        | none => none
        | some data =>
            if data.disabled then some (dsetdefault errs p "logical")
            else
              match dfind? mappings p with
              | none => some (dset errs p "unmapped")
              | some nm =>
                  if ¬ dmem fp nm.1 then some (dset errs p "missing")
                  else some (dset errs p "unknown err")) := by
  unfold consolidate_required
  simp only [List.foldlM_cons, List.foldlM_nil]
  by_cases hm : dmem errs p
  · simp [hm]
  · simp only [hm, if_false, Bool.false_eq_true]
    cases hd : dfind? oz p with
    | none => rfl
    | some data =>
        show (Option.bind (some data) _) >>= _ = _
        by_cases hdis : data.disabled
        · simp [hdis]
        · simp only [Option.bind_eq_bind, Option.some_bind, hdis, if_false,
            Bool.false_eq_true]
          cases hmap : dfind? mappings p with
          | none => rfl
          | some nm =>
              by_cases hfp : dmem fp nm.1 <;> simp [hfp]

/-- A single consolidation step writes only its own key. -/
theorem consolidate_step_preserves (oz : List (Nat × OzonAttrData))
    (mappings : List (Nat × (String × Nat))) (fp : List (String × List String))
    (p : Nat) (k : Nat) (hne : p ≠ k) (errs errs' : List (Nat × String))
    (hstep : consolidate_required oz mappings fp [p] errs = some errs') :
    dfind? errs' k = dfind? errs k := by
  rw [consolidate_single] at hstep
  by_cases hm : dmem errs p
  · rw [if_pos hm] at hstep
    cases hstep
    rfl
  · rw [if_neg hm] at hstep
    cases hd : dfind? oz p with
    | none =>
        simp only [hd] at hstep
        cases hstep
    | some data =>
        simp only [hd] at hstep
        by_cases hdis : data.disabled
        · rw [if_pos hdis] at hstep
          cases hstep
          exact dfind?_dsetdefault_ne _ _ _ _ hne
        · rw [if_neg hdis] at hstep
          cases hmap : dfind? mappings p with
          | none =>
              simp only [hmap] at hstep
              cases hstep
              exact dfind?_dset_ne _ _ _ _ hne
          | some nm =>
              simp only [hmap] at hstep
              by_cases hfp : dmem fp nm.1
              · rw [if_neg (not_not_intro hfp)] at hstep
                cases hstep
                exact dfind?_dset_ne _ _ _ _ hne
              · rw [if_pos hfp] at hstep
                cases hstep
                exact dfind?_dset_ne _ _ _ _ hne

theorem consolidate_preserves (oz : List (Nat × OzonAttrData))
    (mappings : List (Nat × (String × Nat))) (fp : List (String × List String))
    (k : Nat) :
    ∀ (rest : List Nat) (errs errs' : List (Nat × String)), k ∉ rest →
      consolidate_required oz mappings fp rest errs = some errs' →
      dfind? errs' k = dfind? errs k := by
  intro rest
  induction rest with
  | nil => intro errs errs' _ h; cases h; rfl
  | cons p t ih =>
      intro errs errs' hk h
      rw [consolidate_cons] at h
      cases hstep : consolidate_required oz mappings fp [p] errs with
      | none => rw [hstep] at h; cases h
      | some e =>
          rw [hstep] at h
          have h' : consolidate_required oz mappings fp t e = some errs' := h
          have h1 := ih e errs' (fun hm => hk (List.mem_cons_of_mem p hm)) h'
          have h2 := consolidate_step_preserves oz mappings fp p k
            (fun he => hk (he ▸ List.mem_cons_self p t)) errs e hstep
          rw [h1, h2]

/-- C3 (amended): every required attribute with no value that carries no
error from the earlier steps is classified into exactly one error with the
precedence disabled → `logical`, absent from the attribute map →
`unmapped`, feed name absent from the offer's parameters → `missing`,
otherwise `unknown err`; an attribute already carrying an earlier-step
error (such as `empty`) keeps that error instead. -/
theorem consolidate_required_classification (oz : List (Nat × OzonAttrData))
    (mappings : List (Nat × (String × Nat))) (fp : List (String × List String)) :
    ∀ (required : List Nat) (errors0 result : List (Nat × String)),
      required.Nodup →
      consolidate_required oz mappings fp required errors0 = some result →
      ∀ sid data, sid ∈ required → dfind? oz sid = some data →
        dfind? result sid = some
          (match dfind? errors0 sid with
           | some e => e
           | none =>
              if data.disabled then "logical"
              else
                match dfind? mappings sid with
                | none => "unmapped"
                | some nm => if dmem fp nm.1 then "unknown err" else "missing") := by
  intro required
  induction required with
  | nil => intro errors0 result _ _ sid data hmem; cases hmem
  | cons p t ih =>
      intro errors0 result hnd h sid data hmem hdata
      rw [consolidate_cons] at h
      cases hstep : consolidate_required oz mappings fp [p] errors0 with
      | none => rw [hstep] at h; cases h
      | some e =>
          rw [hstep] at h
          have h' : consolidate_required oz mappings fp t e = some result := h
          rcases List.mem_cons.mp hmem with hm | hm
          · subst hm
            have hnrest : sid ∉ t := (List.nodup_cons.mp hnd).1
            rw [consolidate_preserves oz mappings fp sid t e result hnrest h']
            rw [consolidate_single] at hstep
            by_cases hm0 : dmem errors0 sid
            · rw [if_pos hm0] at hstep
              cases hstep
              cases hfind : dfind? errors0 sid with
              | none => exfalso; simp [dmem, hfind] at hm0
              | some er => simp [hfind]
            · rw [if_neg hm0] at hstep
              simp only [hdata] at hstep
              have hfind : dfind? errors0 sid = none := by
                cases hf : dfind? errors0 sid with
                | none => rfl
                | some er => exfalso; simp [dmem, hf] at hm0
              rw [hfind]
              by_cases hdis : data.disabled
              · rw [if_pos hdis] at hstep
                cases hstep
                simp only [hdis, if_true]
                unfold dsetdefault
                rw [if_neg hm0]
                exact dfind?_append_single_not_mem _ _ _ (Bool.not_eq_true _ |>.mp hm0)
              · rw [if_neg hdis] at hstep
                simp only [hdis, Bool.false_eq_true, if_false]
                cases hmap : dfind? mappings sid with
                | none =>
                    simp only [hmap] at hstep
                    cases hstep
                    simp only [hmap]
                    exact dfind?_dset_self _ _ _
                | some nm =>
                    simp only [hmap] at hstep
                    by_cases hfp : dmem fp nm.1
                    · rw [if_neg (not_not_intro hfp)] at hstep
                      cases hstep
                      simp only [hmap, hfp, if_true]
                      exact dfind?_dset_self _ _ _
                    · rw [if_pos hfp] at hstep
                      cases hstep
                      simp only [hmap, Bool.not_eq_true] at hfp
                      simp only [hmap, hfp, Bool.false_eq_true, if_false]
                      exact dfind?_dset_self _ _ _
          · have hpe : dfind? e sid = dfind? errors0 sid := by
              have hpne : p ≠ sid := by
                intro he
                exact (List.nodup_cons.mp hnd).1 (he ▸ hm)
              exact consolidate_step_preserves oz mappings fp p sid hpne errors0 e hstep
            have hres := ih e result (List.nodup_cons.mp hnd).2 h' sid data hm hdata
            rw [hpe] at hres
            exact hres

/-- Witness for C3's amended theorem: a disabled required attribute with no
earlier error is classified `logical`. -/
theorem consolidate_required_classification_witness :
    dfind? [(700, "logical")] (700 : Nat) = some "logical" := by
  have h := consolidate_required_classification
    [(700, ⟨true, true, none, "Цвет"⟩)] [] [] [700] [] [(700, "logical")]
    (by decide) (by decide) 700 ⟨true, true, none, "Цвет"⟩ (by decide) (by decide)
  exact h.trans (by decide)

/-- C3 counterexample: an offer whose required, enabled, mapped attribute
received the empty raw value keeps its earlier `empty` error, where the
claim's precedence chain would demand the unresolved catch-all. -/
theorem required_attr_keeps_earlier_error :
    (collect_attributes c3_lookups c3_amap ⟨[], [], [700]⟩ c3_offer).map
        (fun r => r.2.2) = some [(700, "empty")] ∧
    build_feed_params c3_offer = some [("ЦВЕТ", [""]), ("@ID", ["1"])] ∧
    dmem (build_mappings (munge_model_year_map c3_amap)) 700 = true ∧
    (⟨true, false, some 9, "Цвет"⟩ : OzonAttrData).disabled = false ∧
    some "empty" ≠ some "unknown err" := by
  refine ⟨by decide, by decide, by decide, rfl, by decide⟩

/-! ## C7: readiness verdict and per-offer accumulator reset -/

theorem model_year_int_ne : MODEL_YEAR_PARAM_INT ≠ MODEL_YEAR_PARAM := by decide

theorem munge_step_my (st : AttrMap) (p : Nat × MappingForMarket) :
    dfind? (munge_step st p) MODEL_YEAR_PARAM =
      if p.2.values_map = none then
        some (dpop ((dfind? st MODEL_YEAR_PARAM).getD []) p.1)
      else dfind? st MODEL_YEAR_PARAM := by
  by_cases h : p.2.values_map = none
  · simp [munge_step, h, dfind?_dupd_self,
      dfind?_dupd_ne _ _ _ _ _ model_year_int_ne]
  · simp [munge_step, h]

theorem munge_step_sub (st : AttrMap) (p : Nat × MappingForMarket)
    (q : Nat × MappingForMarket)
    (hq : q ∈ (dfind? (munge_step st p) MODEL_YEAR_PARAM).getD []) :
    q ∈ (dfind? st MODEL_YEAR_PARAM).getD [] := by
  rw [munge_step_my] at hq
  by_cases h : p.2.values_map = none
  · rw [if_pos h] at hq
    simp only [Option.getD_some] at hq
    exact List.mem_of_mem_filter hq
  · rw [if_neg h] at hq; exact hq

theorem munge_fold_sub (L : List (Nat × MappingForMarket)) :
    ∀ (st : AttrMap) (q : Nat × MappingForMarket),
      q ∈ (dfind? (L.foldl munge_step st) MODEL_YEAR_PARAM).getD [] →
      q ∈ (dfind? st MODEL_YEAR_PARAM).getD [] := by
  induction L with
  | nil => intro st q h; exact h
  | cons a t ih =>
      intro st q h
      exact munge_step_sub st a q (ih (munge_step st a) q h)

theorem munge_step_popped (st : AttrMap) (p : Nat × MappingForMarket)
    (hp : p.2.values_map = none) :
    ∀ q ∈ (dfind? (munge_step st p) MODEL_YEAR_PARAM).getD [], q.1 ≠ p.1 := by
  intro q hq
  rw [munge_step_my, if_pos hp] at hq
  simp only [Option.getD_some] at hq
  have h2 := List.of_mem_filter hq
  simpa using h2

theorem munge_fold_removes (L : List (Nat × MappingForMarket)) :
    ∀ (st : AttrMap) (p : Nat × MappingForMarket), p ∈ L → p.2.values_map = none →
      ∀ q ∈ (dfind? (L.foldl munge_step st) MODEL_YEAR_PARAM).getD [], q.1 ≠ p.1 := by
  induction L with
  | nil => intro st p hp; cases hp
  | cons a t ih =>
      intro st p hp hvm q hq
      rw [List.foldl_cons] at hq
      rcases List.mem_cons.mp hp with h1 | h2
      · subst h1
        exact munge_step_popped st p hvm q (munge_fold_sub t (munge_step st p) q hq)
      · exact ih (munge_step st a) p h2 hvm q hq

theorem munge_entries_have_values_map (m : AttrMap) :
    ∀ q ∈ (dfind? (munge_model_year_map m) MODEL_YEAR_PARAM).getD [],
      q.2.values_map ≠ none := by
  intro q hq hvm
  cases hb : dfind? m MODEL_YEAR_PARAM with
  | none =>
      simp only [munge_model_year_map, hb] at hq
      simp at hq
  | some bucket =>
      simp only [munge_model_year_map, hb] at hq
      have hqb : q ∈ bucket := by
        have h2 := munge_fold_sub bucket m q hq
        rw [hb] at h2
        simpa using h2
      exact munge_fold_removes bucket m q hqb hvm q hq rfl

theorem munge_fold_id (L : List (Nat × MappingForMarket))
    (h : ∀ p ∈ L, p.2.values_map ≠ none) :
    ∀ st : AttrMap, L.foldl munge_step st = st := by
  induction L with
  | nil => intro st; rfl
  | cons a t ih =>
      intro st
      rw [List.foldl_cons]
      have ha : munge_step st a = st := by
        unfold munge_step
        rw [if_neg (h a (List.mem_cons_self a t))]
      rw [ha]
      exact ih (fun p hp => h p (List.mem_cons_of_mem a hp)) st

theorem munge_model_year_map_idem (m : AttrMap) :
    munge_model_year_map (munge_model_year_map m) = munge_model_year_map m := by
  have he : ∀ x : AttrMap, munge_model_year_map x =
      (match dfind? x MODEL_YEAR_PARAM with
       | none => x
       | some bucket => bucket.foldl munge_step x) := fun _ => rfl
  cases hb : dfind? (munge_model_year_map m) MODEL_YEAR_PARAM with
  | none => rw [he (munge_model_year_map m), hb]
  | some bucket =>
      rw [he (munge_model_year_map m), hb]
      exact munge_fold_id bucket
        (fun p hp => munge_entries_have_values_map m p (by rw [hb]; exact hp)) _

theorem collect_attributes_munge (l : Lookups) (amap : AttrMap)
    (st0 : CollectState) (offer : Offer) :
    collect_attributes l (munge_model_year_map amap) st0 offer =
      collect_attributes l amap st0 offer := by
  simp only [collect_attributes, munge_model_year_map_idem]

theorem collect_offer_parameters_munge (l : Lookups) (amap : AttrMap)
    (offer : Offer) :
    collect_offer_parameters l (munge_model_year_map amap) offer =
      collect_offer_parameters l amap offer := by
  simp only [collect_offer_parameters, collect_attributes_munge]

theorem collect_attributes_amap_eq (l : Lookups) (amap : AttrMap)
    (st0 : CollectState) (offer : Offer)
    (r : AttrMap × CollectState × List (Nat × String))
    (h : collect_attributes l amap st0 offer = some r) :
    r.1 = munge_model_year_map amap := by
  unfold collect_attributes at h
  obtain ⟨fp0, h1, h⟩ := Option.bind_eq_some.mp h
  obtain ⟨mv, h2, h⟩ := Option.bind_eq_some.mp h
  obtain ⟨idv, h3, h⟩ := Option.bind_eq_some.mp h
  obtain ⟨tnr, h4, h⟩ := Option.bind_eq_some.mp h
  obtain ⟨errsF, h5, h⟩ := Option.bind_eq_some.mp h
  rw [← Option.some.inj h]

theorem collect_offer_parameters_amap_eq (l : Lookups) (amap : AttrMap)
    (offer : Offer) (r : AttrMap × List Nat × OfferInfo)
    (h : collect_offer_parameters l amap offer = some r) :
    r.1 = munge_model_year_map amap := by
  unfold collect_offer_parameters at h
  obtain ⟨ca, h1, h⟩ := Option.bind_eq_some.mp h
  obtain ⟨amap1, stA, attrErrs⟩ := ca
  obtain ⟨tv, h2, h⟩ := Option.bind_eq_some.mp h
  obtain ⟨tags5, vat⟩ := tv
  obtain ⟨offerId, h3, h⟩ := Option.bind_eq_some.mp h
  rw [← Option.some.inj h]
  exact collect_attributes_amap_eq l amap _ offer (amap1, stA, attrErrs) h1

theorem collect_offer_parameters_ready_iff (l : Lookups) (amap : AttrMap)
    (offer : Offer) (r : AttrMap × List Nat × OfferInfo)
    (h : collect_offer_parameters l amap offer = some r) :
    (r.2.2.ready_for_import = true ↔ r.2.1 = [] ∧ r.2.2.tags_errors = []) := by
  unfold collect_offer_parameters at h
  obtain ⟨ca, h1, h⟩ := Option.bind_eq_some.mp h
  obtain ⟨amap1, stA, attrErrs⟩ := ca
  obtain ⟨tv, h2, h⟩ := Option.bind_eq_some.mp h
  obtain ⟨tags5, vat⟩ := tv
  obtain ⟨offerId, h3, h⟩ := Option.bind_eq_some.mp h
  rw [← Option.some.inj h]
  simp [List.isEmpty_iff]

theorem collect_import_fold_shift (l : Lookups) (offers : List Offer) :
    ∀ (amap : AttrMap) (acc : List OfferInfo),
      offers.foldlM (collect_import_step l) (amap, acc) =
        (offers.foldlM (collect_import_step l) (amap, [])).map
          (fun r => (r.1, acc ++ r.2)) := by
  induction offers with
  | nil => intro amap acc; simp
  | cons o t ih =>
      intro amap acc
      rw [List.foldlM_cons, List.foldlM_cons]
      cases hc : collect_offer_parameters l amap o with
      | none => simp [collect_import_step, hc]
      | some st =>
          simp only [collect_import_step, hc, Option.some_bind, Option.bind_eq_bind,
            Option.pure_def]
          rw [ih st.1 (acc ++ [st.2.2]), ih st.1 ([] ++ [st.2.2])]
          cases t.foldlM (collect_import_step l) (st.1, []) with
          | none => simp
          | some r => simp

theorem collect_offer_import_params_cons (l : Lookups) (amap : AttrMap)
    (o : Offer) (t : List Offer) :
    collect_offer_import_params l amap (o :: t) =
      (collect_offer_parameters l amap o).bind
        (fun st => (collect_offer_import_params l st.1 t).map
          (fun infos => st.2.2 :: infos)) := by
  unfold collect_offer_import_params
  rw [List.foldlM_cons]
  cases hc : collect_offer_parameters l amap o with
  | none => simp [collect_import_step, hc]
  | some st =>
      simp only [collect_import_step, hc, Option.some_bind, Option.bind_eq_bind,
        Option.pure_def]
      rw [collect_import_fold_shift l t st.1 ([] ++ [st.2.2])]
      cases t.foldlM (collect_import_step l) (st.1, []) with
      | none => simp
      | some r => simp

theorem collect_offer_import_params_munge (l : Lookups) (amap : AttrMap)
    (offers : List Offer) :
    collect_offer_import_params l (munge_model_year_map amap) offers =
      collect_offer_import_params l amap offers := by
  cases offers with
  | nil => rfl
  | cons o t =>
      rw [collect_offer_import_params_cons, collect_offer_import_params_cons,
        collect_offer_parameters_munge]

theorem collect_offer_import_params_eq_mapM (l : Lookups) (amap : AttrMap)
    (offers : List Offer) :
    collect_offer_import_params l amap offers =
      offers.mapM
        (fun o => (collect_offer_parameters l amap o).map (fun r => r.2.2)) := by
  induction offers generalizing amap with
  | nil => rfl
  | cons o t ih =>
      rw [collect_offer_import_params_cons, List.mapM_cons]
      cases hc : collect_offer_parameters l amap o with
      | none => simp
      | some st =>
          have hm : st.1 = munge_model_year_map amap :=
            collect_offer_parameters_amap_eq l amap o st hc
          simp only [Option.some_bind, Option.map_some', Option.bind_eq_bind,
            Option.pure_def]
          rw [hm, collect_offer_import_params_munge, ih amap]
          cases t.mapM
              (fun o => (collect_offer_parameters l amap o).map (fun r => r.2.2)) with
          | none => simp
          | some infos => simp

/-- C7: for every processed offer, the readiness verdict is true exactly when
the leftover required-attribute list and the tag-level error accumulator are
both empty; and the per-offer accumulators are reset for each offer, so the
whole offer loop computes exactly the independent per-offer outputs (each
offer's dict is what `_collect_offer_parameters` yields on that offer alone,
with no error leaking across offers through the shared attribute map). -/
theorem readiness_iff_and_no_cross_offer_leakage :
    (∀ (l : Lookups) (amap : AttrMap) (offer : Offer)
        (r : AttrMap × List Nat × OfferInfo),
        collect_offer_parameters l amap offer = some r →
        (r.2.2.ready_for_import = true ↔ r.2.1 = [] ∧ r.2.2.tags_errors = [])) ∧
    (∀ (l : Lookups) (amap : AttrMap) (offers : List Offer),
        collect_offer_import_params l amap offers =
          offers.mapM
            (fun o => (collect_offer_parameters l amap o).map (fun r => r.2.2))) :=
  ⟨collect_offer_parameters_ready_iff, collect_offer_import_params_eq_mapM⟩

/-- The C7 theorem applied at a concrete lookup table and offer. -/
theorem readiness_iff_and_no_cross_offer_leakage_witness :
    ((c7_result.2.2.ready_for_import = true ↔
        c7_result.2.1 = [] ∧ c7_result.2.2.tags_errors = []) ∧
      collect_offer_import_params c7_lookups [] [c7_offer] =
        [c7_offer].mapM
          (fun o => (collect_offer_parameters c7_lookups [] o).map
            (fun r => r.2.2))) :=
  ⟨readiness_iff_and_no_cross_offer_leakage.1 c7_lookups [] c7_offer c7_result
      (by rfl),
   readiness_iff_and_no_cross_offer_leakage.2 c7_lookups [] [c7_offer]⟩

/-! ## C2: idempotence of the Equal-Value Auto-Mapper -/

theorem mem_dset {α β : Type} [DecidableEq α] (d : List (α × β)) (k : α) (v : β)
    (p : α × β) (h : p ∈ dset d k v) : p ∈ d ∨ p = (k, v) := by
  induction d with
  | nil =>
      simp only [dset, List.mem_singleton] at h
      right; exact h
  | cons a t ih =>
      obtain ⟨a1, a2⟩ := a
      by_cases ha : a1 = k
      · rw [dset, if_pos ha] at h
        rcases List.mem_cons.mp h with h1 | h1
        · right; rw [h1, ha]
        · left; exact List.mem_cons_of_mem _ h1
      · rw [dset, if_neg ha] at h
        rcases List.mem_cons.mp h with h1 | h1
        · left; rw [h1]; exact List.mem_cons_self _ _
        · rcases ih h1 with h2 | h2
          · left; exact List.mem_cons_of_mem _ h2
          · right; exact h2

theorem dmem_iff_mem_keys {α β : Type} [DecidableEq α] (d : List (α × β)) (k : α) :
    dmem d k = true ↔ k ∈ d.map Prod.fst := by
  induction d with
  | nil => simp [dmem, dfind?]
  | cons a t ih =>
      obtain ⟨a1, a2⟩ := a
      by_cases ha : a1 = k
      · simp [dmem, dfind?, ha]
      · simp only [dmem, dfind?, if_neg ha, List.map_cons, List.mem_cons]
        rw [← dmem]
        constructor
        · intro h; right; exact ih.mp h
        · intro h
          rcases h with h | h
          · exact absurd h.symm ha
          · exact ih.mpr h

theorem dset_of_not_mem {α β : Type} [DecidableEq α] (d : List (α × β)) (k : α)
    (v : β) (h : dmem d k = false) : dset d k v = d ++ [(k, v)] := by
  induction d with
  | nil => rfl
  | cons a t ih =>
      obtain ⟨a1, a2⟩ := a
      by_cases ha : a1 = k
      · exfalso
        rw [dmem, dfind?, if_pos ha] at h
        simp at h
      · rw [dset, if_neg ha, List.cons_append]
        rw [dmem, dfind?, if_neg ha, ← dmem] at h
        rw [ih h]

theorem keys_dset_of_mem {α β : Type} [DecidableEq α] (d : List (α × β)) (k : α)
    (v : β) (h : dmem d k = true) : (dset d k v).map Prod.fst = d.map Prod.fst := by
  induction d with
  | nil => simp [dmem, dfind?] at h
  | cons a t ih =>
      obtain ⟨a1, a2⟩ := a
      by_cases ha : a1 = k
      · rw [dset, if_pos ha]; simp
      · rw [dset, if_neg ha, List.map_cons, List.map_cons]
        rw [dmem, dfind?, if_neg ha, ← dmem] at h
        rw [ih h]

theorem nodup_keys_dset {α β : Type} [DecidableEq α] (d : List (α × β)) (k : α)
    (v : β) (h : (d.map Prod.fst).Nodup) : ((dset d k v).map Prod.fst).Nodup := by
  cases hm : dmem d k with
  | true => rw [keys_dset_of_mem d k v hm]; exact h
  | false =>
      rw [dset_of_not_mem d k v hm]
      have hk : k ∉ d.map Prod.fst := fun hc => by
        rw [(dmem_iff_mem_keys d k).mpr hc] at hm; cases hm
      simp [List.nodup_append, h, hk]

theorem pyDictOf_eq_self_aux {α β : Type} [DecidableEq α] (l : List (α × β)) :
    ∀ acc : List (α × β), (((acc ++ l).map Prod.fst).Nodup) →
      l.foldl (fun d p => dset d p.1 p.2) acc = acc ++ l := by
  induction l with
  | nil => intro acc _; simp
  | cons a t ih =>
      intro acc h
      rw [List.foldl_cons]
      have hk : a.1 ∉ acc.map Prod.fst := by
        intro hc
        rw [List.map_append] at h
        rcases List.disjoint_of_nodup_append h hc with h2
        exact h2 (by simp)
      have hm : dmem acc a.1 = false := by
        cases hm : dmem acc a.1 with
        | false => rfl
        | true => exact absurd ((dmem_iff_mem_keys acc a.1).mp hm) hk
      rw [dset_of_not_mem acc a.1 a.2 hm]
      have h2 : (((acc ++ [(a.1, a.2)]) ++ t).map Prod.fst).Nodup := by
        rw [List.append_assoc, List.singleton_append]
        simpa using h
      rw [ih (acc ++ [(a.1, a.2)]) h2, List.append_assoc, List.singleton_append]

theorem pyDictOf_eq_self {α β : Type} [DecidableEq α] (l : List (α × β))
    (h : (l.map Prod.fst).Nodup) : pyDictOf l = l := by
  have := pyDictOf_eq_self_aux l [] (by simpa using h)
  simpa [pyDictOf] using this

theorem mem_pyDictOf_aux {α β : Type} [DecidableEq α] (l : List (α × β)) :
    ∀ (acc : List (α × β)) (x : α × β),
      x ∈ l.foldl (fun d p => dset d p.1 p.2) acc → x ∈ acc ∨ x ∈ l := by
  induction l with
  | nil => intro acc x h; left; exact h
  | cons a t ih =>
      intro acc x h
      rw [List.foldl_cons] at h
      rcases ih (dset acc a.1 a.2) x h with h1 | h1
      · rcases mem_dset acc a.1 a.2 x h1 with h2 | h2
        · left; exact h2
        · right; rw [h2]; simp
      · right; exact List.mem_cons_of_mem a h1

theorem mem_pyDictOf {α β : Type} [DecidableEq α] (l : List (α × β)) (x : α × β)
    (h : x ∈ pyDictOf l) : x ∈ l := by
  rcases mem_pyDictOf_aux l [] x h with h1 | h1
  · cases h1
  · exact h1

theorem dfind?_mem {α β : Type} [DecidableEq α] (d : List (α × β)) (k : α) (v : β)
    (h : dfind? d k = some v) : (k, v) ∈ d := by
  induction d with
  | nil => cases h
  | cons a t ih =>
      obtain ⟨a1, a2⟩ := a
      by_cases ha : a1 = k
      · rw [dfind?, if_pos ha] at h
        rw [← ha, ← Option.some.inj h]
        simp
      · rw [dfind?, if_neg ha] at h
        exact List.mem_cons_of_mem _ (ih h)

theorem dfind?_of_mem_nodup {α β : Type} [DecidableEq α] (d : List (α × β))
    (k : α) (v : β) (hn : (d.map Prod.fst).Nodup) (h : (k, v) ∈ d) :
    dfind? d k = some v := by
  induction d with
  | nil => cases h
  | cons a t ih =>
      obtain ⟨a1, a2⟩ := a
      rw [List.map_cons, List.nodup_cons] at hn
      rcases List.mem_cons.mp h with h1 | h1
      · have h2 : a1 = k ∧ a2 = v := by
          constructor
          · exact (congrArg Prod.fst h1).symm
          · exact (congrArg Prod.snd h1).symm
        rw [dfind?, if_pos h2.1, h2.2]
      · by_cases ha : a1 = k
        · exfalso
          have hmem : k ∈ t.map Prod.fst := List.mem_map_of_mem Prod.fst h1
          rw [← ha] at hmem
          exact hn.1 hmem
        · rw [dfind?, if_neg ha]
          exact ih hn.2 h1

theorem dmem_dset_self {α β : Type} [DecidableEq α] (d : List (α × β)) (k : α)
    (v : β) : dmem (dset d k v) k = true := by
  simp [dmem, dfind?_dset_self]

theorem dmem_dset_mono {α β : Type} [DecidableEq α] (d : List (α × β)) (k j : α)
    (v : β) (h : dmem d j = true) : dmem (dset d k v) j = true := by
  by_cases hk : k = j
  · rw [hk]; exact dmem_dset_self d j v
  · rw [dmem, dfind?_dset_ne d j k v hk]; exact h

theorem foldl_pred {α σ : Type} (f : σ → α → σ) (P : σ → Prop)
    (h : ∀ s a, P s → P (f s a)) : ∀ (l : List α) (s : σ), P s → P (l.foldl f s) := by
  intro l
  induction l with
  | nil => intro s hs; exact hs
  | cons a t ih => intro s hs; rw [List.foldl_cons]; exact ih (f s a) (h s a hs)

theorem create_one_eq (amId : Nat) (acc : MapperDB) (q : Nat × Nat) :
    create_one amId acc q =
      if (⟨amId, q.1, q.2⟩ : ValueMapRow) ∈ acc.value_maps then acc
      else { acc with value_maps := acc.value_maps ++ [⟨amId, q.1, q.2⟩] } := rfl

theorem create_one_vm_nodup (amId : Nat) (acc : MapperDB) (q : Nat × Nat)
    (h : acc.value_maps.Nodup) : (create_one amId acc q).value_maps.Nodup := by
  rw [create_one_eq]
  by_cases hm : (⟨amId, q.1, q.2⟩ : ValueMapRow) ∈ acc.value_maps
  · rw [if_pos hm]; exact h
  · rw [if_neg hm]
    rw [List.nodup_append]
    exact ⟨h, List.nodup_singleton _, by simpa [List.disjoint_singleton] using hm⟩

theorem create_step_vm_nodup (acc : MapperDB) (p : Nat × List (Nat × Nat))
    (h : acc.value_maps.Nodup) : (create_step acc p).value_maps.Nodup :=
  foldl_pred (create_one p.1) (fun s => s.value_maps.Nodup)
    (fun s a hs => create_one_vm_nodup p.1 s a hs) p.2 acc h

theorem create_val_mappings_vm_nodup (m : List (Nat × List (Nat × Nat)))
    (db : MapperDB) (h : db.value_maps.Nodup) :
    (create_val_mappings m db).value_maps.Nodup :=
  foldl_pred create_step (fun s => s.value_maps.Nodup)
    (fun s a hs => create_step_vm_nodup s a hs) m db h

theorem create_one_fields (amId : Nat) (acc : MapperDB) (q : Nat × Nat) :
    (create_one amId acc q).feed_values = acc.feed_values ∧
      (create_one amId acc q).market_values = acc.market_values ∧
      (create_one amId acc q).attr_maps = acc.attr_maps := by
  rw [create_one_eq]
  by_cases hm : (⟨amId, q.1, q.2⟩ : ValueMapRow) ∈ acc.value_maps
  · rw [if_pos hm]; exact ⟨rfl, rfl, rfl⟩
  · rw [if_neg hm]; exact ⟨rfl, rfl, rfl⟩

theorem create_val_mappings_feed (m : List (Nat × List (Nat × Nat))) (db : MapperDB) :
    (create_val_mappings m db).feed_values = db.feed_values :=
  foldl_preserve create_step (fun s => s.feed_values)
    (fun s a => foldl_preserve (create_one a.1) (fun s2 => s2.feed_values)
      (fun s2 q => (create_one_fields a.1 s2 q).1) a.2 s) m db

theorem create_val_mappings_market (m : List (Nat × List (Nat × Nat))) (db : MapperDB) :
    (create_val_mappings m db).market_values = db.market_values :=
  foldl_preserve create_step (fun s => s.market_values)
    (fun s a => foldl_preserve (create_one a.1) (fun s2 => s2.market_values)
      (fun s2 q => (create_one_fields a.1 s2 q).2.1) a.2 s) m db

theorem create_val_mappings_attrs (m : List (Nat × List (Nat × Nat))) (db : MapperDB) :
    (create_val_mappings m db).attr_maps = db.attr_maps :=
  foldl_preserve create_step (fun s => s.attr_maps)
    (fun s a => foldl_preserve (create_one a.1) (fun s2 => s2.attr_maps)
      (fun s2 q => (create_one_fields a.1 s2 q).2.2) a.2 s) m db

theorem create_one_vm_mono (amId : Nat) (acc : MapperDB) (q : Nat × Nat)
    (r : ValueMapRow) (h : r ∈ acc.value_maps) :
    r ∈ (create_one amId acc q).value_maps := by
  rw [create_one_eq]
  by_cases hm : (⟨amId, q.1, q.2⟩ : ValueMapRow) ∈ acc.value_maps
  · rw [if_pos hm]; exact h
  · rw [if_neg hm]; exact List.mem_append_left _ h

theorem create_val_mappings_vm_mono (m : List (Nat × List (Nat × Nat)))
    (db : MapperDB) (r : ValueMapRow) (h : r ∈ db.value_maps) :
    r ∈ (create_val_mappings m db).value_maps :=
  foldl_pred create_step (fun s => r ∈ s.value_maps)
    (fun s a hs => foldl_pred (create_one a.1) (fun s2 => r ∈ s2.value_maps)
      (fun s2 q hs2 => create_one_vm_mono a.1 s2 q r hs2) a.2 s hs) m db h

theorem create_one_registers (amId : Nat) (acc : MapperDB) (q : Nat × Nat) :
    (⟨amId, q.1, q.2⟩ : ValueMapRow) ∈ (create_one amId acc q).value_maps := by
  rw [create_one_eq]
  by_cases hm : (⟨amId, q.1, q.2⟩ : ValueMapRow) ∈ acc.value_maps
  · rw [if_pos hm]; exact hm
  · rw [if_neg hm]; exact List.mem_append_right _ (by simp)

theorem create_step_registers (acc : MapperDB) (p : Nat × List (Nat × Nat))
    (q : Nat × Nat) (hq : q ∈ p.2) :
    (⟨p.1, q.1, q.2⟩ : ValueMapRow) ∈ (create_step acc p).value_maps := by
  obtain ⟨s, t, hst⟩ := List.append_of_mem hq
  unfold create_step
  rw [hst, List.foldl_append, List.foldl_cons]
  exact foldl_pred (create_one p.1) (fun s2 => _ ∈ s2.value_maps)
    (fun s2 a hs2 => create_one_vm_mono p.1 s2 a _ hs2) t _
    (create_one_registers p.1 (s.foldl (create_one p.1) acc) q)

theorem create_val_mappings_registers (m : List (Nat × List (Nat × Nat)))
    (db : MapperDB) (p : Nat × List (Nat × Nat)) (hp : p ∈ m)
    (q : Nat × Nat) (hq : q ∈ p.2) :
    (⟨p.1, q.1, q.2⟩ : ValueMapRow) ∈ (create_val_mappings m db).value_maps := by
  obtain ⟨s, t, hst⟩ := List.append_of_mem hp
  unfold create_val_mappings
  rw [hst, List.foldl_append, List.foldl_cons]
  exact foldl_pred create_step (fun s2 => _ ∈ s2.value_maps)
    (fun s2 a hs2 => foldl_pred (create_one a.1) (fun s3 => _ ∈ s3.value_maps)
      (fun s3 b hs3 => create_one_vm_mono a.1 s3 b _ hs3) a.2 s2 hs2) t _
    (create_step_registers (s.foldl create_step db) p q hq)

theorem filterMap_map_sublist {α β γ : Type} (f : α → Option β) (g : β → γ)
    (h : α → γ) (hc : ∀ a r, f a = some r → g r = h a) :
    ∀ l : List α, ((l.filterMap f).map g).Sublist (l.map h) := by
  intro l
  induction l with
  | nil => simp
  | cons a t ih =>
      rw [List.map_cons, List.filterMap_cons]
      cases hf : f a with
      | none => exact List.Sublist.cons _ ih
      | some r => rw [List.map_cons, hc a r hf]; exact List.Sublist.cons₂ _ ih

theorem mappedFeedValueIds_mono (db db1 : MapperDB) (amid : Nat)
    (tail : List ValueMapRow) (h : db1.value_maps = db.value_maps ++ tail)
    (x : Nat) (hx : x ∈ mappedFeedValueIds db amid) :
    x ∈ mappedFeedValueIds db1 amid := by
  unfold mappedFeedValueIds at hx ⊢
  rw [h, List.filter_append, List.map_append]
  exact List.mem_append_left _ hx

theorem equal_values_resolve_fields (mkt : List (String × Nat)) (dflt : Option Nat)
    (amid : Nat) (p : String × Nat) (r : ValueMapRow)
    (h : equal_values_resolve mkt dflt amid p = some r) :
    r.attribute_map_id = amid ∧ r.feed_attribute_value_id = p.2 := by
  unfold equal_values_resolve at h
  obtain ⟨mp, _, hfn⟩ := Option.map_eq_some'.mp h
  rw [← hfn]
  exact ⟨rfl, rfl⟩

theorem unmappedFeedValuePairs_snd (db : MapperDB) (am : AttrMapEV) :
    (unmappedFeedValuePairs db am).map Prod.snd =
      (db.feed_values.filter
          (fun v => v.attribute_id = am.feed_attribute_id ∧
            v.id ∉ mappedFeedValueIds db am.id)).map (fun v => v.id) := by
  unfold unmappedFeedValuePairs
  rw [List.map_map]
  rfl

theorem unmappedFeedValuePairs_snd_nodup (db : MapperDB) (am : AttrMapEV)
    (hfid : (db.feed_values.map FeedValueRow.id).Nodup) :
    ((unmappedFeedValuePairs db am).map Prod.snd).Nodup := by
  rw [unmappedFeedValuePairs_snd]
  exact List.Nodup.sublist
    (List.Sublist.map (fun v => v.id) (List.filter_sublist db.feed_values)) hfid

theorem map_attribute_equal_values_once_more (db : MapperDB) (amid : Nat)
    (am : AttrMapEV) (db1 : MapperDB)
    (hfind : db.attr_maps.find? (fun a => a.id = amid) = some am)
    (hnodup : ((unmappedFeedValuePairs db am).map Prod.fst).Nodup)
    (hfid : (db.feed_values.map FeedValueRow.id).Nodup)
    (hvm : db.value_maps.Nodup)
    (h : map_attribute_equal_values db amid = some db1) :
    map_attribute_equal_values db1 amid = some db1 ∧ db1.value_maps.Nodup := by
  have hamid : am.id = amid := by simpa using List.find?_some hfind
  unfold map_attribute_equal_values at h
  simp only [hfind] at h
  by_cases hg : ¬ (am.attr.map_equal_values = true ∧ am.attr.dictionary_id.isSome = true)
  · rw [if_pos hg] at h
    have hdb : db = db1 := Option.some.inj h
    subst hdb
    constructor
    · unfold map_attribute_equal_values
      simp only [hfind]
      rw [if_pos hg]
    · exact hvm
  · rw [if_neg hg] at h
    have hattr : db1.attr_maps = db.attr_maps := by rw [← Option.some.inj h]
    have hfeed : db1.feed_values = db.feed_values := by rw [← Option.some.inj h]
    have hmarket : db1.market_values = db.market_values := by rw [← Option.some.inj h]
    have hvm1 : db1.value_maps = db.value_maps ++
        (pyDictOf (unmappedFeedValuePairs db am)).filterMap
          (equal_values_resolve (marketplaceValuesDict db am.attr.dictionary_id)
            am.attr.default_value_id amid) := by rw [← Option.some.inj h]
    have hdict : pyDictOf (unmappedFeedValuePairs db am) = unmappedFeedValuePairs db am :=
      pyDictOf_eq_self _ hnodup
    have hsub : ∀ p : String × Nat, p ∈ unmappedFeedValuePairs db1 am →
        p ∈ unmappedFeedValuePairs db am := by
      intro p hp
      unfold unmappedFeedValuePairs at hp ⊢
      rw [hfeed] at hp
      obtain ⟨v, hv, hveq⟩ := List.mem_map.mp hp
      refine List.mem_map.mpr ⟨v, ?_, hveq⟩
      rw [List.mem_filter] at hv ⊢
      refine ⟨hv.1, ?_⟩
      have hc := hv.2
      simp only [decide_eq_true_eq] at hc ⊢
      exact ⟨hc.1, fun hmem =>
        hc.2 (mappedFeedValueIds_mono db db1 am.id _ hvm1 v.id hmem)⟩
    have hkey : ∀ p ∈ pyDictOf (unmappedFeedValuePairs db1 am),
        equal_values_resolve (marketplaceValuesDict db1 am.attr.dictionary_id)
          am.attr.default_value_id amid p = none := by
      intro p hp
      by_contra hne
      obtain ⟨row, hrow⟩ : ∃ r, equal_values_resolve
          (marketplaceValuesDict db1 am.attr.dictionary_id)
          am.attr.default_value_id amid p = some r := by
        cases hr : equal_values_resolve (marketplaceValuesDict db1 am.attr.dictionary_id)
            am.attr.default_value_id amid p with
        | none => exact absurd hr hne
        | some r => exact ⟨r, rfl⟩
      have hp1 : p ∈ unmappedFeedValuePairs db1 am := mem_pyDictOf _ _ hp
      have hp0 : p ∈ unmappedFeedValuePairs db am := hsub p hp1
      have hmkt : marketplaceValuesDict db1 am.attr.dictionary_id =
          marketplaceValuesDict db am.attr.dictionary_id := by
        unfold marketplaceValuesDict
        rw [hmarket]
      rw [hmkt] at hrow
      have hrmem : row ∈ (pyDictOf (unmappedFeedValuePairs db am)).filterMap
          (equal_values_resolve (marketplaceValuesDict db am.attr.dictionary_id)
            am.attr.default_value_id amid) := by
        refine List.mem_filterMap.mpr ⟨p, ?_, hrow⟩
        rw [hdict]
        exact hp0
      have hfields := equal_values_resolve_fields _ _ _ _ _ hrow
      have hmapped : p.2 ∈ mappedFeedValueIds db1 amid := by
        unfold mappedFeedValueIds
        refine List.mem_map.mpr ⟨row, List.mem_filter.mpr ⟨?_, ?_⟩, hfields.2⟩
        · rw [hvm1]; exact List.mem_append_right _ hrmem
        · simp [hfields.1]
      obtain ⟨v, hv, hveq⟩ := List.mem_map.mp hp1
      rw [List.mem_filter] at hv
      have hc := hv.2
      simp only [decide_eq_true_eq] at hc
      rw [hamid] at hc
      have hpv : p.2 = v.id := by rw [← hveq]
      rw [hpv] at hmapped
      exact hc.2 hmapped
    refine ⟨?_, ?_⟩
    · unfold map_attribute_equal_values
      have hfind1 : db1.attr_maps.find? (fun a => a.id = amid) = some am := by
        rw [hattr]; exact hfind
      simp only [hfind1]
      rw [if_neg hg]
      have hnr2 : (pyDictOf (unmappedFeedValuePairs db1 am)).filterMap
          (equal_values_resolve (marketplaceValuesDict db1 am.attr.dictionary_id)
            am.attr.default_value_id amid) = [] := List.filterMap_eq_nil_iff.mpr hkey
      rw [hnr2, List.append_nil]
    · rw [hvm1, List.nodup_append]
      refine ⟨hvm, ?_, ?_⟩
      · refine List.Nodup.of_map (fun r => r.feed_attribute_value_id) ?_
        refine List.Nodup.sublist ?_ (unmappedFeedValuePairs_snd_nodup db am hfid)
        rw [hdict]
        exact filterMap_map_sublist
          (equal_values_resolve (marketplaceValuesDict db am.attr.dictionary_id)
            am.attr.default_value_id amid)
          ValueMapRow.feed_attribute_value_id Prod.snd
          (fun a r hr => (equal_values_resolve_fields _ _ _ _ _ hr).2)
          (unmappedFeedValuePairs db am)
      · intro r hr hrNR
        obtain ⟨p, hpmem, hpres⟩ := List.mem_filterMap.mp hrNR
        have hfields := equal_values_resolve_fields _ _ _ _ _ hpres
        rw [hdict] at hpmem
        obtain ⟨v, hv, hveq⟩ := List.mem_map.mp hpmem
        rw [List.mem_filter] at hv
        have hc := hv.2
        simp only [decide_eq_true_eq] at hc
        rw [hamid] at hc
        refine hc.2 ?_
        have hpv : p.2 = v.id := by rw [← hveq]
        rw [← hpv, ← hfields.2]
        unfold mappedFeedValueIds
        refine List.mem_map.mpr ⟨r, List.mem_filter.mpr ⟨hr, ?_⟩, rfl⟩
        simp [hfields.1]

theorem equal_values_inner_preserve (p : Nat × UnmappedEntry) (k j : Nat)
    (m : List (Nat × List (Nat × Nat))) (fv : Nat × String)
    (h : ∃ inner, dfind? m k = some inner ∧ dmem inner j = true) :
    ∃ inner, dfind? (equal_values_inner p m fv) k = some inner ∧
      dmem inner j = true := by
  obtain ⟨inner, h1, h2⟩ := h
  unfold equal_values_inner
  cases hf : p.2.mp_values.find? (fun mv => fv.2 = mv.2) with
  | none => exact ⟨inner, h1, h2⟩
  | some mv =>
      by_cases hk : p.1 = k
      · subst hk
        refine ⟨dset inner fv.1 mv.1, ?_, dmem_dset_mono _ _ _ _ h2⟩
        rw [dfind?_dupd_self, h1]
        rfl
      · refine ⟨inner, ?_, h2⟩
        rw [dfind?_dupd_ne _ _ _ _ _ hk]
        exact h1

theorem equal_values_inner_fold_preserve (p : Nat × UnmappedEntry) (k j : Nat) :
    ∀ (fvs : List (Nat × String)) (m : List (Nat × List (Nat × Nat))),
      (∃ inner, dfind? m k = some inner ∧ dmem inner j = true) →
      ∃ inner, dfind? (fvs.foldl (equal_values_inner p) m) k = some inner ∧
        dmem inner j = true := by
  intro fvs
  induction fvs with
  | nil => intro m h; exact h
  | cons a t ih =>
      intro m h
      rw [List.foldl_cons]
      exact ih _ (equal_values_inner_preserve p k j m a h)

theorem equal_values_inner_fold_registers (p : Nat × UnmappedEntry)
    (fv : Nat × String) (mv : Nat × String)
    (hhit : p.2.mp_values.find? (fun x => fv.2 = x.2) = some mv) :
    ∀ (fvs : List (Nat × String)) (m : List (Nat × List (Nat × Nat))), fv ∈ fvs →
      ∃ inner, dfind? (fvs.foldl (equal_values_inner p) m) p.1 = some inner ∧
        dmem inner fv.1 = true := by
  intro fvs
  induction fvs with
  | nil => intro m h; cases h
  | cons a t ih =>
      intro m hm
      rw [List.foldl_cons]
      rcases List.mem_cons.mp hm with h1 | h1
      · subst h1
        refine equal_values_inner_fold_preserve p p.1 fv.1 t _ ?_
        simp only [equal_values_inner, hhit]
        exact ⟨_, dfind?_dupd_self _ _ _ _, dmem_dset_self _ _ _⟩
      · exact ih _ h1

theorem equal_values_inner_fold_find (q : Nat × UnmappedEntry) (k : Nat)
    (hne : q.1 ≠ k) :
    ∀ (fvs : List (Nat × String)) (m : List (Nat × List (Nat × Nat))),
      dfind? (fvs.foldl (equal_values_inner q) m) k = dfind? m k := by
  intro fvs
  induction fvs with
  | nil => intro m; rfl
  | cons a t ih =>
      intro m
      rw [List.foldl_cons, ih]
      unfold equal_values_inner
      cases hf : q.2.mp_values.find? (fun mv => a.2 = mv.2) with
      | none => rfl
      | some mv => exact dfind?_dupd_ne _ _ _ _ _ hne

theorem equal_values_step_preserve_ne (q : Nat × UnmappedEntry) (k : Nat)
    (hne : q.1 ≠ k) (m : List (Nat × List (Nat × Nat))) :
    dfind? (equal_values_step m q) k = dfind? m k := by
  unfold equal_values_step
  by_cases hg : q.2.mp_values ≠ [] ∧ q.2.unmapped_feed_values ≠ []
  · rw [if_pos hg]
    exact equal_values_inner_fold_find q k hne _ m
  · rw [if_neg hg]

theorem equal_values_fold_preserve_post (k j : Nat) :
    ∀ (post : List (Nat × UnmappedEntry)) (m : List (Nat × List (Nat × Nat))),
      (∀ q ∈ post, q.1 ≠ k) →
      (∃ inner, dfind? m k = some inner ∧ dmem inner j = true) →
      ∃ inner, dfind? (post.foldl equal_values_step m) k = some inner ∧
        dmem inner j = true := by
  intro post
  induction post with
  | nil => intro m _ h; exact h
  | cons a t ih =>
      intro m hne h
      rw [List.foldl_cons]
      refine ih _ (fun q hq => hne q (List.mem_cons_of_mem _ hq)) ?_
      obtain ⟨inner, h1, h2⟩ := h
      refine ⟨inner, ?_, h2⟩
      rw [equal_values_step_preserve_ne a k (hne a (List.mem_cons_self _ _)) m]
      exact h1

theorem equal_values_registers (u : List (Nat × UnmappedEntry))
    (hk : (u.map Prod.fst).Nodup)
    (q : Nat × UnmappedEntry) (hq : q ∈ u)
    (fv : Nat × String) (hfv : fv ∈ q.2.unmapped_feed_values)
    (mv : Nat × String) (hhit : q.2.mp_values.find? (fun x => fv.2 = x.2) = some mv) :
    ∃ inner, dfind? (get_equal_values u) q.1 = some inner ∧
      dmem inner fv.1 = true := by
  obtain ⟨pre, post, hsplit⟩ := List.append_of_mem hq
  subst hsplit
  rw [List.map_append, List.map_cons] at hk
  have hpost : ∀ r ∈ post, r.1 ≠ q.1 := by
    intro r hr hc
    have h1 := List.nodup_cons.mp (List.Nodup.of_append_right hk)
    exact h1.1 (hc ▸ List.mem_map_of_mem Prod.fst hr)
  unfold get_equal_values
  rw [List.foldl_append, List.foldl_cons]
  refine equal_values_fold_preserve_post q.1 fv.1 post _ hpost ?_
  unfold equal_values_step
  have hg : q.2.mp_values ≠ [] ∧ q.2.unmapped_feed_values ≠ [] :=
    ⟨List.ne_nil_of_mem (List.mem_of_find?_eq_some hhit), List.ne_nil_of_mem hfv⟩
  rw [if_pos hg]
  exact equal_values_inner_fold_registers q fv mv hhit _ _ hfv

theorem equal_values_inner_fold_id (a : Nat × UnmappedEntry) :
    ∀ (fvs : List (Nat × String)) (m : List (Nat × List (Nat × Nat))),
      (∀ fv ∈ fvs, a.2.mp_values.find? (fun mv => fv.2 = mv.2) = none) →
      fvs.foldl (equal_values_inner a) m = m := by
  intro fvs
  induction fvs with
  | nil => intro m _; rfl
  | cons b t ih =>
      intro m h
      rw [List.foldl_cons]
      have hb : equal_values_inner a m b = m := by
        simp only [equal_values_inner, h b (List.mem_cons_self _ _)]
      rw [hb]
      exact ih m (fun fv hfv => h fv (List.mem_cons_of_mem _ hfv))

theorem get_equal_values_eq_nil (u : List (Nat × UnmappedEntry))
    (h : ∀ p ∈ u, ∀ fv ∈ p.2.unmapped_feed_values,
      p.2.mp_values.find? (fun mv => fv.2 = mv.2) = none) :
    get_equal_values u = [] := by
  unfold get_equal_values
  have haux : ∀ (l : List (Nat × UnmappedEntry)) (m : List (Nat × List (Nat × Nat))),
      (∀ p ∈ l, ∀ fv ∈ p.2.unmapped_feed_values,
        p.2.mp_values.find? (fun mv => fv.2 = mv.2) = none) →
      l.foldl equal_values_step m = m := by
    intro l
    induction l with
    | nil => intro m _; rfl
    | cons a t ih =>
        intro m hl
        rw [List.foldl_cons]
        have hstep : equal_values_step m a = m := by
          unfold equal_values_step
          by_cases hg : a.2.mp_values ≠ [] ∧ a.2.unmapped_feed_values ≠ []
          · rw [if_pos hg]
            exact equal_values_inner_fold_id a _ m
              (fun fv hfv => hl a (List.mem_cons_self _ _) fv hfv)
          · rw [if_neg hg]
        rw [hstep]
        exact ih m (fun p hp => hl p (List.mem_cons_of_mem _ hp))
  exact haux u [] h

theorem mem_first_pass (db : MapperDB) (fid : Nat) :
    ∀ (L : List AttrMapEV) (acc : List (Nat × UnmappedEntry))
      (p : Nat × UnmappedEntry),
      p ∈ L.foldl (unmapped_first_step db fid) acc →
      p ∈ acc ∨ ∃ am ∈ L,
        p = (am.id, (⟨batchUnmappedOf db fid am, []⟩ : UnmappedEntry)) ∧
        batchUnmappedOf db fid am ≠ [] := by
  intro L
  induction L with
  | nil => intro acc p h; left; exact h
  | cons a t ih =>
      intro acc p h
      rw [List.foldl_cons] at h
      rcases ih _ p h with h1 | h1
      · simp only [unmapped_first_step] at h1
        by_cases hu : batchUnmappedOf db fid a ≠ []
        · rw [if_pos hu] at h1
          rcases mem_dset _ _ _ _ h1 with h2 | h2
          · left; exact h2
          · right; exact ⟨a, List.mem_cons_self _ _, h2, hu⟩
        · rw [if_neg hu] at h1; left; exact h1
      · right
        obtain ⟨am, ham, h2⟩ := h1
        exact ⟨am, List.mem_cons_of_mem _ ham, h2⟩

theorem first_pass_keys_nodup (db : MapperDB) (fid : Nat) :
    ∀ (L : List AttrMapEV) (acc : List (Nat × UnmappedEntry)),
      ((acc.map Prod.fst).Nodup) →
      (((L.foldl (unmapped_first_step db fid) acc).map Prod.fst).Nodup) := by
  intro L
  induction L with
  | nil => intro acc h; exact h
  | cons a t ih =>
      intro acc h
      rw [List.foldl_cons]
      refine ih _ ?_
      simp only [unmapped_first_step]
      by_cases hu : batchUnmappedOf db fid a ≠ []
      · rw [if_pos hu]; exact nodup_keys_dset _ _ _ h
      · rw [if_neg hu]; exact h

theorem first_pass_untouched (db : MapperDB) (fid : Nat) (k : Nat) :
    ∀ (L : List AttrMapEV) (m : List (Nat × UnmappedEntry)),
      (∀ a ∈ L, a.id ≠ k) →
      dfind? (L.foldl (unmapped_first_step db fid) m) k = dfind? m k := by
  intro L
  induction L with
  | nil => intro m _; rfl
  | cons a t ih =>
      intro m hne
      rw [List.foldl_cons, ih _ (fun b hb => hne b (List.mem_cons_of_mem _ hb))]
      simp only [unmapped_first_step]
      by_cases hu : batchUnmappedOf db fid a ≠ []
      · rw [if_pos hu]
        exact dfind?_dset_ne _ _ _ _ (hne a (List.mem_cons_self _ _))
      · rw [if_neg hu]

theorem first_pass_survivor (db : MapperDB) (fid : Nat) (am : AttrMapEV)
    (ham : am ∈ qualifyingAttrMaps db fid)
    (huniq : ((qualifyingAttrMaps db fid).map (fun a => a.id)).Nodup)
    (hu : batchUnmappedOf db fid am ≠ []) :
    dfind? ((qualifyingAttrMaps db fid).foldl (unmapped_first_step db fid) []) am.id =
      some (⟨batchUnmappedOf db fid am, []⟩ : UnmappedEntry) := by
  obtain ⟨pre, post, hsplit⟩ := List.append_of_mem ham
  rw [hsplit]
  rw [hsplit, List.map_append, List.map_cons] at huniq
  have hpost : ∀ a ∈ post, a.id ≠ am.id := by
    intro a ha hc
    have h1 := List.nodup_cons.mp (List.Nodup.of_append_right huniq)
    exact h1.1 (hc ▸ List.mem_map_of_mem (fun x => x.id) ha)
  rw [List.foldl_append, List.foldl_cons]
  rw [first_pass_untouched db fid am.id post _ hpost]
  simp only [unmapped_first_step]
  rw [if_pos hu, dfind?_dset_self]

theorem mem_get_both (db : MapperDB) (fid : Nat) (p : Nat × UnmappedEntry)
    (hp : p ∈ get_both_values_for_unmapped db fid) :
    ∃ am ∈ qualifyingAttrMaps db fid,
      batchUnmappedOf db fid am ≠ [] ∧
      p = (am.id, (⟨batchUnmappedOf db fid am,
        unmapped_mp_of db (pyDictOf ((qualifyingAttrMaps db fid).map
          (fun a => (a.id, a.attr.dictionary_id)))) am.id⟩ : UnmappedEntry)) := by
  unfold get_both_values_for_unmapped at hp
  obtain ⟨p0, hp0, hpe⟩ := List.mem_map.mp hp
  rcases mem_first_pass db fid _ [] p0 hp0 with h1 | h1
  · cases h1
  obtain ⟨am, ham, hpeq, hu⟩ := h1
  refine ⟨am, ham, hu, ?_⟩
  rw [← hpe, hpeq]
  simp only [unmapped_second_step]
  by_cases hmp : unmapped_mp_of db (pyDictOf ((qualifyingAttrMaps db fid).map
      (fun a => (a.id, a.attr.dictionary_id)))) am.id ≠ []
  · rw [if_pos hmp]
  · rw [if_neg hmp]
    have h0 : unmapped_mp_of db (pyDictOf ((qualifyingAttrMaps db fid).map
        (fun a => (a.id, a.attr.dictionary_id)))) am.id = [] := not_not.mp hmp
    rw [h0]

theorem qualifyingAttrMaps_congr (db db1 : MapperDB) (fid : Nat)
    (h : db1.attr_maps = db.attr_maps) :
    qualifyingAttrMaps db1 fid = qualifyingAttrMaps db fid := by
  unfold qualifyingAttrMaps
  rw [h]

theorem qualifying_ids_nodup (db : MapperDB) (fid : Nat)
    (hids : (db.attr_maps.map (fun a => a.id)).Nodup) :
    ((qualifyingAttrMaps db fid).map (fun a => a.id)).Nodup := by
  refine List.Nodup.sublist (List.Sublist.map _ ?_) hids
  exact (List.filter_sublist _).trans (List.filter_sublist _)

theorem map_attribute_equal_values_v2_idem (db : MapperDB) (fid : Nat)
    (hids : (db.attr_maps.map (fun a => a.id)).Nodup) :
    map_attribute_equal_values_v2 (map_attribute_equal_values_v2 db fid) fid =
      map_attribute_equal_values_v2 db fid := by
  set db1 := map_attribute_equal_values_v2 db fid with hdb1
  have hfeed1 : db1.feed_values = db.feed_values := by
    rw [hdb1]; exact create_val_mappings_feed _ _
  have hmarket1 : db1.market_values = db.market_values := by
    rw [hdb1]; exact create_val_mappings_market _ _
  have hattr1 : db1.attr_maps = db.attr_maps := by
    rw [hdb1]; exact create_val_mappings_attrs _ _
  have hqual : qualifyingAttrMaps db1 fid = qualifyingAttrMaps db fid :=
    qualifyingAttrMaps_congr db db1 fid hattr1
  have hmapmono : ∀ x, x ∈ batchMappedFeedValueIds db fid →
      x ∈ batchMappedFeedValueIds db1 fid := by
    intro x hx
    unfold batchMappedFeedValueIds at hx ⊢
    rw [hqual]
    obtain ⟨vm, hvmm, hvx⟩ := List.mem_map.mp hx
    rw [List.mem_filter] at hvmm
    refine List.mem_map.mpr ⟨vm, List.mem_filter.mpr ⟨?_, hvmm.2⟩, hvx⟩
    rw [hdb1]
    exact create_val_mappings_vm_mono _ _ _ hvmm.1
  have htuple : ∀ t, t ∈ batchUnmappedFeedValues db1 fid →
      t ∈ batchUnmappedFeedValues db fid := by
    intro t ht
    unfold batchUnmappedFeedValues at ht ⊢
    rw [hfeed1, hqual] at ht
    obtain ⟨v, hv, hvt⟩ := List.mem_map.mp ht
    rw [List.mem_filter] at hv
    refine List.mem_map.mpr ⟨v, List.mem_filter.mpr ⟨hv.1, ?_⟩, hvt⟩
    have hc := hv.2
    simp only [decide_eq_true_eq, Bool.and_eq_true] at hc ⊢
    exact ⟨hc.1, fun hmem => hc.2 (hmapmono v.id hmem)⟩
  have hunm : ∀ am fv, fv ∈ batchUnmappedOf db1 fid am →
      fv ∈ batchUnmappedOf db fid am := by
    intro am fv h
    unfold batchUnmappedOf at h ⊢
    obtain ⟨t, ht, htv⟩ := List.mem_map.mp h
    rw [List.mem_filter] at ht
    exact List.mem_map.mpr ⟨t, List.mem_filter.mpr ⟨htuple t ht.1, ht.2⟩, htv⟩
  have hqids : ((qualifyingAttrMaps db fid).map (fun a => a.id)).Nodup :=
    qualifying_ids_nodup db fid hids
  have hmp : ∀ k, unmapped_mp_of db1
      (pyDictOf ((qualifyingAttrMaps db1 fid).map
        (fun a => (a.id, a.attr.dictionary_id)))) k =
      unmapped_mp_of db (pyDictOf ((qualifyingAttrMaps db fid).map
        (fun a => (a.id, a.attr.dictionary_id)))) k := by
    intro k
    unfold unmapped_mp_of
    rw [hmarket1, hqual]
  have hnohit : ∀ p ∈ get_both_values_for_unmapped db1 fid,
      ∀ fv ∈ p.2.unmapped_feed_values,
        p.2.mp_values.find? (fun mv => fv.2 = mv.2) = none := by
    intro p hp fv hfv
    obtain ⟨am, ham1, hu2, hpeq⟩ := mem_get_both db1 fid p hp
    rw [hqual] at ham1
    by_contra hne
    obtain ⟨mv, hmv⟩ : ∃ mv, p.2.mp_values.find? (fun x => fv.2 = x.2) = some mv := by
      cases hv : p.2.mp_values.find? (fun x => fv.2 = x.2) with
      | none => exact absurd hv hne
      | some mv => exact ⟨mv, rfl⟩
    have hfv2 : fv ∈ batchUnmappedOf db1 fid am := by
      rw [hpeq] at hfv; exact hfv
    have hfv1 : fv ∈ batchUnmappedOf db fid am := hunm am fv hfv2
    have hmv1 : (unmapped_mp_of db (pyDictOf ((qualifyingAttrMaps db fid).map
        (fun a => (a.id, a.attr.dictionary_id)))) am.id).find?
          (fun x => fv.2 = x.2) = some mv := by
      rw [← hmp am.id]
      rw [hpeq] at hmv
      exact hmv
    have hu1 : batchUnmappedOf db fid am ≠ [] := List.ne_nil_of_mem hfv1
    have hsurv := first_pass_survivor db fid am ham1 hqids hu1
    have hfirstmem : (am.id, (⟨batchUnmappedOf db fid am, []⟩ : UnmappedEntry)) ∈
        (qualifyingAttrMaps db fid).foldl (unmapped_first_step db fid) [] :=
      dfind?_mem _ _ _ hsurv
    have hGmem : (am.id, (⟨batchUnmappedOf db fid am,
        unmapped_mp_of db (pyDictOf ((qualifyingAttrMaps db fid).map
          (fun a => (a.id, a.attr.dictionary_id)))) am.id⟩ : UnmappedEntry)) ∈
        get_both_values_for_unmapped db fid := by
      unfold get_both_values_for_unmapped
      refine List.mem_map.mpr
        ⟨(am.id, (⟨batchUnmappedOf db fid am, []⟩ : UnmappedEntry)), hfirstmem, ?_⟩
      simp only [unmapped_second_step]
      by_cases hmpne : unmapped_mp_of db (pyDictOf ((qualifyingAttrMaps db fid).map
          (fun a => (a.id, a.attr.dictionary_id)))) am.id ≠ []
      · rw [if_pos hmpne]
      · rw [if_neg hmpne]
        have h0 := not_not.mp hmpne
        rw [h0]
    have hGkeys : ((get_both_values_for_unmapped db fid).map Prod.fst).Nodup := by
      unfold get_both_values_for_unmapped
      have hfk := first_pass_keys_nodup db fid (qualifyingAttrMaps db fid) []
        (by simp)
      have hsame : ((((qualifyingAttrMaps db fid).foldl
            (unmapped_first_step db fid) []).map
          (unmapped_second_step db (pyDictOf ((qualifyingAttrMaps db fid).map
            (fun a => (a.id, a.attr.dictionary_id)))))).map Prod.fst) =
          (((qualifyingAttrMaps db fid).foldl
            (unmapped_first_step db fid) []).map Prod.fst) := by
        rw [List.map_map]
        refine List.map_congr_left ?_
        intro p _
        simp only [Function.comp, unmapped_second_step]
        by_cases hmpne : unmapped_mp_of db (pyDictOf ((qualifyingAttrMaps db fid).map
            (fun a => (a.id, a.attr.dictionary_id)))) p.1 ≠ []
        · rw [if_pos hmpne]
        · rw [if_neg hmpne]
      rw [hsame]
      exact hfk
    obtain ⟨inner, hinner, hdm⟩ := equal_values_registers
      (get_both_values_for_unmapped db fid) hGkeys _ hGmem fv hfv1 mv hmv1
    obtain ⟨w, hw⟩ : ∃ w, dfind? inner fv.1 = some w := by
      cases hv : dfind? inner fv.1 with
      | none => rw [dmem, hv] at hdm; cases hdm
      | some w => exact ⟨w, rfl⟩
    have hrowmem : (⟨am.id, fv.1, w⟩ : ValueMapRow) ∈ db1.value_maps := by
      rw [hdb1]
      exact create_val_mappings_registers _ _ (am.id, inner)
        (dfind?_mem _ _ _ hinner) (fv.1, w) (dfind?_mem _ _ _ hw)
    have hin : fv.1 ∈ batchMappedFeedValueIds db1 fid := by
      unfold batchMappedFeedValueIds
      refine List.mem_map.mpr
        ⟨⟨am.id, fv.1, w⟩, List.mem_filter.mpr ⟨hrowmem, ?_⟩, rfl⟩
      rw [hqual, List.any_eq_true]
      exact ⟨am, ham1, by simp⟩
    unfold batchUnmappedOf at hfv2
    obtain ⟨t, ht, htv⟩ := List.mem_map.mp hfv2
    rw [List.mem_filter] at ht
    have ht1 := ht.1
    unfold batchUnmappedFeedValues at ht1
    obtain ⟨v, hvv, hvt⟩ := List.mem_map.mp ht1
    rw [List.mem_filter] at hvv
    have hc := hvv.2
    simp only [decide_eq_true_eq, Bool.and_eq_true] at hc
    refine hc.2 ?_
    have hfvid : fv.1 = v.id := by rw [← htv, ← hvt]
    rw [← hfvid]
    exact hin
  have hM2 : get_equal_values (get_both_values_for_unmapped db1 fid) = [] :=
    get_equal_values_eq_nil _ hnohit
  show map_attribute_equal_values_v2 db1 fid = db1
  unfold map_attribute_equal_values_v2
  rw [hM2]
  rfl

/-- C2 (amended): the Equal-Value Auto-Mapper is stable under a second run
and keeps the set of ValueMap rows duplicate-free, under the database
invariants the unamended claim silently assumed: (1) a single-mapping run
whose unmapped feed values have pairwise-distinct uppercased texts (and
duplicate-free feed-value ids and rows) returns the same state when run
again, with duplicate-free rows; (2) the batch scope
`map_attribute_equal_values_v2` is idempotent whenever the attribute-map ids
are unique (the primary-key invariant); (3) `create_val_mappings`
(`get_or_create`) never introduces a duplicate
(attribute_map, feed_value, marketplace_value) triple. -/
theorem equal_value_mapper_idempotence_amended :
    (∀ (db : MapperDB) (amid : Nat) (am : AttrMapEV) (db1 : MapperDB),
        db.attr_maps.find? (fun a => a.id = amid) = some am →
        ((unmappedFeedValuePairs db am).map Prod.fst).Nodup →
        (db.feed_values.map FeedValueRow.id).Nodup →
        db.value_maps.Nodup →
        map_attribute_equal_values db amid = some db1 →
        (map_attribute_equal_values db1 amid = some db1 ∧ db1.value_maps.Nodup)) ∧
    (∀ (db : MapperDB) (fid : Nat),
        (db.attr_maps.map (fun a => a.id)).Nodup →
        map_attribute_equal_values_v2 (map_attribute_equal_values_v2 db fid) fid =
          map_attribute_equal_values_v2 db fid) ∧
    (∀ (m : List (Nat × List (Nat × Nat))) (db : MapperDB),
        db.value_maps.Nodup → (create_val_mappings m db).value_maps.Nodup) :=
  ⟨map_attribute_equal_values_once_more, map_attribute_equal_values_v2_idem,
   create_val_mappings_vm_nodup⟩

/-- The C2 amended theorem applied at concrete databases. -/
theorem equal_value_mapper_idempotence_amended_witness :
    ((map_attribute_equal_values c2w_db1 1 = some c2w_db1 ∧
        c2w_db1.value_maps.Nodup) ∧
      (map_attribute_equal_values_v2 (map_attribute_equal_values_v2 c2w_db 0) 0 =
        map_attribute_equal_values_v2 c2w_db 0) ∧
      (create_val_mappings [(1, [(2, 5)])] c2w_db).value_maps.Nodup) :=
  ⟨equal_value_mapper_idempotence_amended.1 c2w_db 1
      ⟨1, 10, 0, ⟨true, some 20, none⟩⟩ c2w_db1 (by decide) (by decide) (by decide)
      (by decide) (by rfl),
   equal_value_mapper_idempotence_amended.2.1 c2w_db 0 (by decide),
   equal_value_mapper_idempotence_amended.2.2 [(1, [(2, 5)])] c2w_db (by decide)⟩

/-- C2 counterexample: with unmapped feed values `Blue` (id 1) and `BLUE`
(id 2) under one attribute, `dict(...)` keeps only id 2 for the key `BLUE`;
the first run maps feed value 2, a second run then maps feed value 1, so two
invocations do not produce the final state of one. -/
theorem equal_value_mapper_not_idempotent :
    (map_attribute_equal_values c2_db 1).bind
        (fun db1 => map_attribute_equal_values db1 1) ≠
      map_attribute_equal_values c2_db 1 := by decide
